import Mathlib

/-!
# blinken: telnet negotiation, IAC escaping, frame splitting, playback loop

A shallow embedding of `cmd/blinken/{main,writer,conn}.go`.

Conventions of the embedding

* a Go `byte` is a `Nat` (values below 256); a `[]byte` is a `List Nat`;
* a Go `int` is an `Int`/`Nat`; where a product can leave the 64-bit range it is
  wrapped explicitly (`wrap64`);
* a Go `error` is an `Option Err` (`none` is `nil`);
* an `io.ReadWriter` is a script of the results its calls will produce together
  with a log of the payloads it was asked to write (`RW`);
* the byte source behind `bufio.NewReader(r)` is the list of bytes not yet
  consumed, end-of-stream being the empty list;
* the `select` loop of `handleWriter` is a step function over events.
-/

namespace Blinken

/-! ## Constants (main.go, lines 426-463) -/

def IAC : Nat := 255
def DONT : Nat := 254
def DO : Nat := 253
def WONT : Nat := 252
def WILL : Nat := 251
def SB : Nat := 250
def SE : Nat := 240
def NAWS : Nat := 31
def SUPPRESS_GO_AHEAD : Nat := 3
def ECHO : Nat := 1

/-- Go `error` values that the modelled code can produce or pass on. -/
inductive Err where
  | eof
  | closed
  | io (code : Nat)
  | unexpected (expected actual : List Nat)
  | badResponse (resp : List Nat)
  deriving DecidableEq, Repr

/-! ## The IAC-escaping writers (writer.go, conn.go) -/

/-- What one call of `Write` did: the slice handed to the underlying writer in
its single `Write` call, and the `(n, err)` pair returned to the caller. -/
structure WriteResult where
  handed : List Nat
  n : Int
  err : Option Err
  deriving DecidableEq, Repr

/-- The `for _, c := range p` loop of `Write`: `tmp` and `numSpecial` are the
loop-carried variables, the list argument is the part of `p` still to visit. -/
def escapeLoop (tmp : List Nat) (numSpecial : Int) : List Nat → List Nat × Int
  | [] => (tmp, numSpecial)
  | c :: rest =>
    if c = IAC then
      escapeLoop ((tmp ++ [IAC]) ++ [c]) (numSpecial + 1) rest
    else
      escapeLoop (tmp ++ [c]) numSpecial rest

/-- The body of `telnetWriter.Write` (writer.go, lines 9-25). `under` is
`w.w.Write`. Note `tmp := p`: the accumulator starts as the payload itself. -/
def telnetWriter.Write (under : List Nat → Int × Option Err) (p : List Nat) : WriteResult :=
  let tmp := p
  let numSpecial : Int := 0
  let loop := escapeLoop tmp numSpecial p
  let res := under loop.1
  let n := res.1 - loop.2
  let n := if n < 0 then 0 else n
  { handed := loop.1, n := n, err := res.2 }

/-- The body of `conn.Write` (conn.go, lines 17-33), line for line the same as
`telnetWriter.Write`; `under` is `c.nc.Write`. -/
def conn.Write (under : List Nat → Int × Option Err) (p : List Nat) : WriteResult :=
  let tmp := p
  let numSpecial : Int := 0
  let loop := escapeLoop tmp numSpecial p
  let res := under loop.1
  let n := res.1 - loop.2
  let n := if n < 0 then 0 else n
  { handed := loop.1, n := n, err := res.2 }

/-- An underlying writer that accepts every byte it is given and returns no
error. -/
def acceptAll (b : List Nat) : Int × Option Err := ((b.length : Int), none)

/-- The escaping described by the specification: every byte of the payload is
kept, and each byte 255 is followed by one extra 255. -/
def escapeSpec : List Nat → List Nat
  | [] => []
  | c :: rest => if c = 255 then 255 :: 255 :: escapeSpec rest else c :: escapeSpec rest

/-! ## The scripted `io.ReadWriter` -/

/-- One result of `Read`: the bytes it delivers and the error it returns. -/
structure ReadEvent where
  data : List Nat
  err : Option Err
  deriving DecidableEq, Repr

/-- An `io.ReadWriter` as seen by the negotiation code: `reads` are the results
the coming `Read` calls will deliver, `writes` the error results of the coming
`Write` calls, `sent` the payloads passed to `Write` so far, oldest first. When
a script is exhausted the connection is gone: `Read` reports end-of-stream and
`Write` reports a closed connection. -/
structure RW where
  reads : List ReadEvent
  writes : List (Option Err)
  sent : List (List Nat)
  deriving DecidableEq, Repr

/-- The call `rw.Write(p)`: logs the payload and returns the scripted error. -/
def RW.Write (rw : RW) (p : List Nat) : Option Err × RW :=
  match rw.writes with
  | [] => (some Err.closed, { rw with sent := rw.sent ++ [p] })
  | e :: ws => (e, { rw with writes := ws, sent := rw.sent ++ [p] })

/-- The call `rw.Read(buf)` with `len(buf) = size`: returns `buf[:n]` and the
error. A delivery longer than the buffer fills the buffer and leaves the
remainder (with its error) for the next call. -/
def RW.Read (rw : RW) (size : Nat) : List Nat × Option Err × RW :=
  match rw.reads with
  | [] => ([], some Err.eof, rw)
  | ev :: rest =>
    if ev.data.length ≤ size then
      (ev.data, ev.err, { rw with reads := rest })
    else
      (ev.data.take size, none,
        { rw with reads := { data := ev.data.drop size, err := ev.err } :: rest })

/-! ## Telnet negotiation (main.go, lines 78-177) -/

/-- The function `expect` (lines 172-177): `bytes.Equal(actual, expected)`. -/
def expect (expected actual : List Nat) : Option Err :=
  if ¬ (actual = expected) then some (Err.unexpected expected actual) else none

/-- The function `command` (lines 86-96). The callback `handle` is a Go closure;
the variables it captures are passed through it as the state `st`. -/
def command {σ : Type} (rw : RW) (send : List Nat)
    (handle : List Nat → σ → Option Err × σ) (st : σ) : Option Err × σ × RW :=
  let w := rw.Write send
  match w.1 with
  | some err => (some err, st, w.2)
  | none =>
    let r := w.2.Read 256
    match r.2.1 with
    | some err => (some err, st, r.2.2)
    | none =>
      let h := handle r.1 st
      (h.1, h.2, r.2.2)

/-- The function `assert` (lines 98-102). -/
def assert (rw : RW) (input output : List Nat) : Option Err × RW :=
  let c := command rw input (fun resp (u : Unit) => (expect output resp, u)) ()
  (c.1, c.2.2)

/-- The function `negotiateUnbufferedKeystrokes` (lines 104-118). -/
def negotiateUnbufferedKeystrokes (rw : RW) : Option Err × RW :=
  let a := assert rw [IAC, WILL, SUPPRESS_GO_AHEAD] [IAC, DO, SUPPRESS_GO_AHEAD]
  match a.1 with
  | some err => (some err, a.2)
  | none =>
    let b := assert a.2 [IAC, WILL, ECHO] [IAC, DO, ECHO]
    match b.1 with
    | some err => (some err, b.2)
    | none => (none, b.2)

/-- The call `binary.BigEndian.Uint16(b)` on a two-byte slice. -/
def bigEndianUint16 (b : List Nat) : Nat :=
  match b with
  | [b0, b1] => (b0 * 256 + b1) % 65536
  | _ => 0

/-- The closure passed to `command` in `negotiateWindowSize` (lines 123-139);
the captured variables `(w, h)` are the state. -/
def windowSizeHandler (resp : List Nat) (wh : Nat × Nat) : Option Err × (Nat × Nat) :=
  if resp.length ≠ 12 then (some (Err.badResponse resp), wh)
  else
    match expect (resp.take 3) [IAC, WILL, NAWS] with
    | some err => (some err, wh)
    | none =>
      match expect ((resp.take 6).drop 3) [IAC, SB, NAWS] with
      | some err => (some err, wh)
      | none =>
        match expect (resp.drop (resp.length - 2)) [IAC, SE] with
        | some err => (some err, wh)
        | none =>
          (none, (bigEndianUint16 ((resp.take 8).drop 6),
                  bigEndianUint16 ((resp.take 10).drop 8)))

/-- The function `negotiateWindowSize` (lines 120-147). An error of `command`
is only logged; either way the current `(w, h)` is returned. -/
def negotiateWindowSize (rw : RW) : (Nat × Nat) × RW :=
  let wh : Nat × Nat := (80, 24)
  let c := command rw [IAC, DO, NAWS] windowSizeHandler wh
  match c.1 with
  | some _ => (c.2.1, c.2.2)
  | none => (c.2.1, c.2.2)

/-- The result of `negotiateTelnet`: the returned triple and the reader/writer
afterwards. -/
structure NegotiateResult where
  width : Int
  height : Int
  err : Option Err
  rw : RW
  deriving DecidableEq, Repr

/-- The function `negotiateTelnet` (lines 78-84). -/
def negotiateTelnet (rw : RW) : NegotiateResult :=
  let k := negotiateUnbufferedKeystrokes rw
  match k.1 with
  | some err => { width := 0, height := 0, err := some err, rw := k.2 }
  | none =>
    let n := negotiateWindowSize k.2
    { width := (n.1.1 : Int), height := (n.1.2 : Int), err := none, rw := n.2 }

/-- A step-3 response that passes every check of the window-size handler: 12
bytes, `IAC WILL NAWS`, `IAC SB NAWS`, four free bytes, `IAC SE`. -/
def WellFormedNaws (resp : List Nat) : Prop :=
  resp.length = 12 ∧ resp.take 3 = [255, 251, 31] ∧ (resp.take 6).drop 3 = [255, 250, 31]
    ∧ resp.drop 10 = [255, 240]

instance (resp : List Nat) : Decidable (WellFormedNaws resp) := by
  unfold WellFormedNaws; infer_instance

/-- Step 1 succeeds: the first write returns no error and the first read
returns exactly `[255, 253, 3]` with no error. -/
def Step1Ok (rw : RW) : Prop :=
  rw.writes.head? = some none ∧ rw.reads.head? = some { data := [255, 253, 3], err := none }

/-- Step 2 succeeds: the second write returns no error and the second read
returns exactly `[255, 253, 1]` with no error. -/
def Step2Ok (rw : RW) : Prop :=
  rw.writes.tail.head? = some none
    ∧ rw.reads.tail.head? = some { data := [255, 253, 1], err := none }

instance (rw : RW) : Decidable (Step1Ok rw) := by unfold Step1Ok; infer_instance
instance (rw : RW) : Decidable (Step2Ok rw) := by unfold Step2Ok; infer_instance

/-- Steps 1 and 2 succeed and step 3 delivers eleven bytes. -/
def shortNawsPeer : RW :=
  { reads := [{ data := [255, 253, 3], err := none }, { data := [255, 253, 1], err := none },
              { data := [255, 251, 31, 255, 250, 31, 0, 132, 0, 43, 255], err := none }],
    writes := [none, none, none],
    sent := [] }

/-- Step 1 succeeds, step 2 is answered with `255 254 1` (DONT ECHO). -/
def refusingPeer : RW :=
  { reads := [{ data := [255, 253, 3], err := none }, { data := [255, 254, 1], err := none }],
    writes := [none, none, none],
    sent := [] }

/-! ## The frame splitter (main.go, lines 249-263) -/

/-- The call `bufr.ReadBytes(delim)` on the unread bytes: the token up to and
including the first `delim`, no error, and the bytes after it; when `delim` does
not occur, everything that was left together with end-of-stream. -/
def ReadBytes (delim : Nat) : List Nat → List Nat × Option Err × List Nat
  | [] => ([], some Err.eof, [])
  | b :: rest =>
    if b = delim then ([b], none, rest)
    else
      let r := ReadBytes delim rest
      (b :: r.1, r.2.1, r.2.2)

/-- What `readFrame` returns: `(&buf, nil)` or `(nil, err)`. -/
inductive FrameResult where
  | frame (buf : List Nat)
  | fail (err : Err)
  deriving DecidableEq, Repr

/-- The `for` loop of `readFrame`; `buf` is the `bytes.Buffer`, `src` the unread
bytes. One unit of fuel is one iteration; `none` means the fuel ran out. -/
def readFrameLoop : Nat → List Nat → List Nat → Option (FrameResult × List Nat)
  | 0, _, _ => none
  | fuel + 1, buf, src =>
    let t := ReadBytes 0xd9 src
    match t.2.1 with
    | some err => some (FrameResult.fail err, t.2.2)
    | none =>
      let buf := buf ++ t.1
      if t.1.length > 1 ∧ t.1.drop (t.1.length - 2) = [0xff, 0xd9] then
        some (FrameResult.frame buf, t.2.2)
      else
        readFrameLoop fuel buf t.2.2

/-- The closure `readFrame`: result and the bytes left unread. Every iteration
that does not fail consumes at least one byte, so `len(src) + 1` iterations are
enough (`readFrame_total`). -/
def readFrame (src : List Nat) : Option (FrameResult × List Nat) :=
  readFrameLoop (src.length + 1) [] src

/-- The last two bytes are the end-of-image marker `0xFF 0xD9`. -/
def EndsEOI (g : List Nat) : Prop := [255, 217] <:+ g

instance (g : List Nat) : Decidable (EndsEOI g) := by unfold EndsEOI; infer_instance

/-- A buffer that ends in `0xFF 0xD9` and contains that pair nowhere else. -/
def IsFrame (f : List Nat) : Prop :=
  EndsEOI f ∧ ∀ n, n < f.length → ¬ EndsEOI (f.take n)

instance (f : List Nat) : Decidable (IsFrame f) := by unfold IsFrame; infer_instance

/-! ## The playback loop (main.go, lines 265-300) -/

/-- Two's-complement wrap of a 64-bit Go `int`. -/
def wrap64 (x : Int) : Int := (x + 2 ^ 63) % 2 ^ 64 - 2 ^ 63

/-- The loop `for i := 0; i < n; i++ { readFrame() }` (lines 266-268); the
results of `readFrame` are dropped, only the reader advances. -/
def skipFrames : Nat → List Nat → List Nat
  | 0, src => src
  | k + 1, src =>
    match readFrame src with
    | some r => skipFrames k r.2
    | none => src

/-- The variables of the `select` loop: the counter `m`, whether `out` is
`printCh` (`true`) or `nil` (`false`), the variable `frame`, the bytes `bufr` has
not yet consumed, and whether the loop has returned. Two logs are kept beside
them: `decoded` lists the images obtained from `jpeg.Decode` (lines 288-294),
`delivered` the values the print goroutine received on `printCh`. -/
structure LoopState (α : Type) where
  m : Nat
  out : Bool
  frame : Option α
  src : List Nat
  stopped : Bool
  decoded : List α
  delivered : List (Option α)
  deriving DecidableEq, Repr

/-- The three cases of the `select`: `<-timer.C`, `out <- frame` completing
(the print goroutine received), `<-ctx.Done()`. -/
inductive Event where
  | tick
  | accept
  | cancel
  deriving DecidableEq, Repr

/-- The state on reaching the `select` loop (line 271, `m := 0`) with `src` the
bytes `bufr` has not consumed: `out` and `frame` are `nil`. -/
def handleWriter.enterLoop {α : Type} (src : List Nat) : LoopState α :=
  { m := 0, out := false, frame := none, src := src, stopped := false,
    decoded := [], delivered := [] }

/-- The part of `handleWriter` from line 265 to line 271: the start-offset loop
followed by `m := 0`. `ss` is the flag value `*ss`, `src` the source. -/
def handleWriter.start {α : Type} (ss : Int) (src : List Nat) : LoopState α :=
  let src := if ss > 0 then skipFrames (wrap64 (ss * 25)).toNat src else src
  handleWriter.enterLoop src

/-- One iteration of the `for { select { ... } }` of `handleWriter` (lines
273-300) taking the case named by the event; `none` when that case cannot be
taken (the loop has returned, or `out` is `nil` for the send case).
`decode` is `jpeg.Decode`, `none` being a decode error. The flag `fps` (line
28) is not read anywhere: the period of the timer and the drop of every frame
with an even counter are fixed. -/
def handleWriter.step {α : Type} (decode : List Nat → Option α) (s : LoopState α) :
    Event → Option (LoopState α)
  | Event.tick =>
    if s.stopped then none
    else
      match readFrame s.src with
      | none => none
      | some (FrameResult.fail _, rest) => some { s with src := rest, stopped := true }
      | some (FrameResult.frame frameR, rest) =>
        let m := s.m + 1
        if m % 2 = 0 then some { s with m := m, src := rest }
        else
          match decode frameR with
          | none => some { s with m := m, src := rest, stopped := true }
          | some img =>
            some { s with m := m, src := rest, out := true, frame := some img,
                          decoded := s.decoded ++ [img] }
  | Event.accept =>
    if s.stopped then none
    else if s.out then some { s with out := false, delivered := s.delivered ++ [s.frame] }
    else none
  | Event.cancel =>
    if s.stopped then none else some { s with stopped := true }

/-- The loop run through a sequence of events. -/
def handleWriter.run {α : Type} (decode : List Nat → Option α) (s : LoopState α) :
    List Event → Option (LoopState α)
  | [] => some s
  | e :: es =>
    match handleWriter.step decode s e with
    | none => none
    | some t => handleWriter.run decode t es

/-- Number of timer ticks in a sequence of events. -/
def ticks (es : List Event) : Nat := es.count Event.tick

/-- The first `n` results of `readFrame` when all of them are frames, with the
bytes left after them. -/
def readFrames : Nat → List Nat → Option (List (List Nat) × List Nat)
  | 0, src => some ([], src)
  | n + 1, src =>
    match readFrame src with
    | some (FrameResult.frame f, rest) =>
      match readFrames n rest with
      | some (fs, r) => some (f :: fs, r)
      | none => none
    | _ => none

/-- A schedule of `n` ticks in which the print goroutine keeps up: counting from
the counter value `m`, every tick that stages a frame (odd counter) is followed
by the hand-off before the next tick. -/
def keepingUp (m : Nat) : Nat → List Event
  | 0 => []
  | k + 1 =>
    if (m + 1) % 2 = 0 then Event.tick :: keepingUp (m + 1) k
    else Event.tick :: Event.accept :: keepingUp (m + 1) k

/-- The frames of `fs` that receive an odd counter value when the counter
stands at `m` before the first of them. -/
def keptFrom (m : Nat) : List (List Nat) → List (List Nat)
  | [] => []
  | f :: fs => if (m + 1) % 2 = 0 then keptFrom (m + 1) fs else f :: keptFrom (m + 1) fs

/-- A decoder for examples: the image is the frame's bytes. -/
def decodeBytes (f : List Nat) : Option (List Nat) := some f

/-- A decoder that fails on the frame `[2, 255, 217]` and returns the bytes of
every other frame. -/
def decodeNotSecond (f : List Nat) : Option (List Nat) :=
  if f = [2, 255, 217] then none else some f

/-- Three frames `[1,255,217]`, `[2,255,217]`, `[3,255,217]` back to back. -/
def threeFrames : List Nat := [1, 255, 217, 2, 255, 217, 3, 255, 217]

/-- Five frames `[1,255,217]`, ..., `[5,255,217]` back to back. -/
def fiveFrames : List Nat :=
  [1, 255, 217, 2, 255, 217, 3, 255, 217, 4, 255, 217, 5, 255, 217]

/-- The hand-off invariant: the values delivered so far are, in order, among the
images decoded so far; while a send is pending the variable `frame` holds the
most recently decoded image, which has not been delivered yet; while no send is
pending the most recently decoded image is the last one delivered. -/
def HandoffInv {α : Type} (s : LoopState α) : Prop :=
  (s.out = true → ∃ d img, s.decoded = d ++ [img] ∧ s.frame = some img
      ∧ List.Sublist s.delivered (d.map some))
  ∧ (s.out = false → (s.decoded = [] ∧ s.delivered = [])
      ∨ ∃ d img dl, s.decoded = d ++ [img] ∧ s.delivered = dl ++ [some img]
          ∧ List.Sublist dl (d.map some))

/-- A 250-frame source: frame number `i + 1` is `[i, 255, 217]`. -/
def source250 : List (List Nat) := (List.range 250).map (fun i => [i, 255, 217])

/-! ## The scale factor (main.go, lines 381-411) -/

/-- The function `scalar` (lines 398-411). The products `cols*2` and `rows*4`
are taken in 64-bit `int` before the conversion to `float64`; the `float64`
arithmetic is read as exact rational arithmetic. -/
def scalar (dx dy cols rows : Int) : ℚ :=
  let scale : ℚ := 1
  let scaleX : ℚ := ((wrap64 (cols * 2) : Int) : ℚ) / ((dx : Int) : ℚ)
  let scaleY : ℚ := ((wrap64 (rows * 4) : Int) : ℚ) / ((dy : Int) : ℚ)
  let scale := if scaleX < scale then scaleX else scale
  let scale := if scaleY < scale then scaleY else scale
  scale

/-- The first-invocation branch of `Filter.Filter` (lines 381-388): the value
stored in `f.scale`. -/
def Filter.scale (dx dy width height : Int) : ℚ :=
  let scale := scalar dx dy width height
  let scale := if scale ≥ 1 then 1 else scale
  scale

/-! # Theorems -/

/-! ### Facts about the writers -/

theorem escapeLoop_eq (tmp : List Nat) (k : Int) (p : List Nat) :
    escapeLoop tmp k p = (tmp ++ escapeSpec p, k + (p.count 255 : Int)) := by
  induction p generalizing tmp k with
  | nil => simp [escapeLoop, escapeSpec]
  | cons c rest ih =>
    by_cases hc : c = 255
    · subst hc
      simp [escapeLoop, escapeSpec, IAC, ih, List.count_cons]
      ring
    · have hc2 : ¬ (255 = c) := fun h => hc h.symm
      simp [escapeLoop, escapeSpec, IAC, ih, List.count_cons, hc, hc2]

theorem escapeSpec_length (p : List Nat) :
    (escapeSpec p).length = p.length + p.count 255 := by
  induction p with
  | nil => simp [escapeSpec]
  | cons c rest ih =>
    by_cases hc : c = 255
    · subst hc
      simp [escapeSpec, ih, List.count_cons]
      omega
    · have hc2 : ¬ (255 = c) := fun h => hc h.symm
      simp [escapeSpec, ih, List.count_cons, hc, hc2]
      omega

theorem conn_Write_eq : conn.Write = telnetWriter.Write := rfl


theorem telnetWriter_Write_handed (under : List Nat → Int × Option Err) (p : List Nat) :
    (telnetWriter.Write under p).handed = p ++ escapeSpec p := by
  simp [telnetWriter.Write, escapeLoop_eq]

theorem telnetWriter_Write_n_acceptAll (p : List Nat) :
    (telnetWriter.Write acceptAll p).n = 2 * (p.length : Int) := by
  simp [telnetWriter.Write, escapeLoop_eq, acceptAll, escapeSpec_length]
  omega

theorem telnetWriter_Write_n_nonneg (under : List Nat → Int × Option Err) (p : List Nat) :
    0 ≤ (telnetWriter.Write under p).n := by
  simp only [telnetWriter.Write]
  split <;> omega

/-- C1 (evaluation of the code). For the one-byte payload `[65]`, which contains
no byte 255, both `telnetWriter.Write` and `conn.Write` hand the two bytes
`[65, 65]` to the underlying writer, not `[65]`; in general the slice handed
over is the payload followed by its escaped copy, of length
`2 * len(p) + k` for `k` bytes equal to 255. -/
theorem Write_hands_payload_twice :
    (telnetWriter.Write acceptAll [65]).handed = [65, 65]
    ∧ (conn.Write acceptAll [65]).handed = [65, 65]
    ∧ (telnetWriter.Write acceptAll [1, 255, 2]).handed = [1, 255, 2, 1, 255, 255, 2]
    ∧ (∀ (under : List Nat → Int × Option Err) (p : List Nat),
        (telnetWriter.Write under p).handed = p ++ escapeSpec p
        ∧ (conn.Write under p).handed = p ++ escapeSpec p
        ∧ (telnetWriter.Write under p).handed.length = 2 * p.length + p.count 255) := by
  refine ⟨by decide, by decide, by decide, ?_⟩
  intro under p
  refine ⟨telnetWriter_Write_handed under p, ?_, ?_⟩
  · rw [conn_Write_eq]; exact telnetWriter_Write_handed under p
  · rw [telnetWriter_Write_handed, List.length_append, escapeSpec_length]; omega

/-- C2 (evaluation of the code). With an underlying writer that accepts every
byte and returns no error, `Write` on the one-byte payload `[65]` returns the
count 2, not `len(p) = 1`; in general it returns `2 * len(p)`. The returned
count is never negative. -/
theorem Write_count_is_doubled :
    (telnetWriter.Write acceptAll [65]).n = 2
    ∧ (conn.Write acceptAll [65]).n = 2
    ∧ (telnetWriter.Write acceptAll [65]).err = none
    ∧ (∀ p : List Nat, (telnetWriter.Write acceptAll p).n = 2 * (p.length : Int)
        ∧ (conn.Write acceptAll p).n = 2 * (p.length : Int))
    ∧ (∀ (under : List Nat → Int × Option Err) (p : List Nat),
        0 ≤ (telnetWriter.Write under p).n ∧ 0 ≤ (conn.Write under p).n) := by
  refine ⟨by decide, by decide, by decide, ?_, ?_⟩
  · intro p
    refine ⟨telnetWriter_Write_n_acceptAll p, ?_⟩
    rw [conn_Write_eq]; exact telnetWriter_Write_n_acceptAll p
  · intro under p
    refine ⟨telnetWriter_Write_n_nonneg under p, ?_⟩
    rw [conn_Write_eq]; exact telnetWriter_Write_n_nonneg under p

/-! ### Negotiation -/

theorem assert_sent (rw : RW) (input output : List Nat) :
    (assert rw input output).2.sent = rw.sent ++ [input] := by
  rcases rw with ⟨reads, writes, sent⟩
  cases writes with
  | nil => simp [assert, command, RW.Write]
  | cons e ws =>
    cases e with
    | some e => simp [assert, command, RW.Write]
    | none =>
      cases reads with
      | nil => simp [assert, command, RW.Write, RW.Read]
      | cons ev rs =>
        rcases ev with ⟨data, err⟩
        by_cases hlen : data.length ≤ 256
        · cases err with
          | some e => simp [assert, command, RW.Write, RW.Read, hlen]
          | none => simp [assert, command, RW.Write, RW.Read, hlen, expect]
        · simp [assert, command, RW.Write, RW.Read, hlen, expect]

theorem assert_ok_iff (rw : RW) (input output : List Nat) (hout : output.length < 256) :
    (assert rw input output).1 = none ↔
      (rw.writes.head? = some none ∧ rw.reads.head? = some { data := output, err := none }) := by
  rcases rw with ⟨reads, writes, sent⟩
  cases writes with
  | nil => simp [assert, command, RW.Write]
  | cons e ws =>
    cases e with
    | some e => simp [assert, command, RW.Write]
    | none =>
      cases reads with
      | nil => simp [assert, command, RW.Write, RW.Read]
      | cons ev rs =>
        rcases ev with ⟨data, err⟩
        by_cases hlen : data.length ≤ 256
        · cases err with
          | some e => simp [assert, command, RW.Write, RW.Read, hlen]
          | none => simp [assert, command, RW.Write, RW.Read, hlen, expect]
        · have hne : ¬ (List.take 256 data = output) := by
            intro h
            have := congrArg List.length h
            simp at this
            omega
          have hne2 : ¬ (data = output) := by
            intro h
            subst h
            omega
          simp [assert, command, RW.Write, RW.Read, hlen, expect, hne, hne2]

theorem assert_ok_state (rw : RW) (input output : List Nat) (hout : output.length < 256)
    (hok : (assert rw input output).1 = none) :
    (assert rw input output).2 =
      { reads := rw.reads.tail, writes := rw.writes.tail, sent := rw.sent ++ [input] } := by
  have h := (assert_ok_iff rw input output hout).1 hok
  rcases rw with ⟨reads, writes, sent⟩
  cases writes with
  | nil => simp at h
  | cons e ws =>
    cases reads with
    | nil => simp at h
    | cons ev rs =>
      simp at h
      rcases h with ⟨he, hev⟩
      subst he
      subst hev
      have hlen : output.length ≤ 256 := by omega
      simp [assert, command, RW.Write, RW.Read, hlen]


theorem windowSizeHandler_malformed (resp : List Nat) (wh : Nat × Nat)
    (hbad : ¬ WellFormedNaws resp) : (windowSizeHandler resp wh).2 = wh := by
  unfold windowSizeHandler
  by_cases hlen : resp.length = 12
  · simp only [hlen, ne_eq, not_true_eq_false, if_false]
    by_cases h1 : resp.take 3 = [255, 251, 31]
    · by_cases h2 : (resp.take 6).drop 3 = [255, 250, 31]
      · by_cases h3 : resp.drop 10 = [255, 240]
        · exact absurd ⟨hlen, h1, h2, h3⟩ hbad
        · have h3s : ¬ ([255, 240] = resp.drop 10) := fun h => h3 h.symm
          simp [expect, IAC, WILL, NAWS, SB, SE, h1, h2, h3s]
      · have h2s : ¬ ([255, 250, 31] = (resp.take 6).drop 3) := fun h => h2 h.symm
        simp [expect, IAC, WILL, NAWS, SB, SE, h1, h2s]
    · have h1s : ¬ ([255, 251, 31] = resp.take 3) := fun h => h1 h.symm
      simp [expect, IAC, WILL, NAWS, SB, SE, h1s]
  · simp [hlen]

theorem windowSizeHandler_wellformed (resp : List Nat) (wh : Nat × Nat)
    (hgood : WellFormedNaws resp) :
    windowSizeHandler resp wh =
      (none, (bigEndianUint16 ((resp.take 8).drop 6), bigEndianUint16 ((resp.take 10).drop 8))) := by
  obtain ⟨hlen, h1, h2, h3⟩ := hgood
  unfold windowSizeHandler
  simp [expect, IAC, WILL, NAWS, SB, SE, h1, h2, h3, hlen]

theorem negotiateWindowSize_sent (rw : RW) :
    (negotiateWindowSize rw).2.sent = rw.sent ++ [[255, 253, 31]] := by
  rcases rw with ⟨reads, writes, sent⟩
  cases writes with
  | nil => simp [negotiateWindowSize, command, RW.Write, IAC, DO, NAWS]
  | cons e ws =>
    cases e with
    | some e => simp [negotiateWindowSize, command, RW.Write, IAC, DO, NAWS]
    | none =>
      cases reads with
      | nil => simp [negotiateWindowSize, command, RW.Write, RW.Read, IAC, DO, NAWS]
      | cons ev rs =>
        rcases ev with ⟨data, err⟩
        by_cases hlen : data.length ≤ 256
        · cases err with
          | some e => simp [negotiateWindowSize, command, RW.Write, RW.Read, hlen, IAC, DO, NAWS]
          | none =>
            simp only [negotiateWindowSize, command, RW.Write, RW.Read, hlen, IAC, DO, NAWS]
            split <;> simp
        · simp only [negotiateWindowSize, command, RW.Write, RW.Read, hlen, IAC, DO, NAWS]
          split <;> simp

theorem negotiateWindowSize_fallback (rw : RW)
    (hbad : ∀ ev, rw.reads.head? = some ev → ev.err = none → ¬ WellFormedNaws ev.data) :
    (negotiateWindowSize rw).1 = (80, 24) := by
  rcases rw with ⟨reads, writes, sent⟩
  cases writes with
  | nil => simp [negotiateWindowSize, command, RW.Write]
  | cons e ws =>
    cases e with
    | some e => simp [negotiateWindowSize, command, RW.Write]
    | none =>
      cases reads with
      | nil => simp [negotiateWindowSize, command, RW.Write, RW.Read]
      | cons ev rs =>
        rcases ev with ⟨data, err⟩
        by_cases hlen : data.length ≤ 256
        · cases err with
          | some e => simp [negotiateWindowSize, command, RW.Write, RW.Read, hlen]
          | none =>
            have hb : ¬ WellFormedNaws data := hbad ⟨data, none⟩ (by simp) rfl
            have := windowSizeHandler_malformed data (80, 24) hb
            simp only [negotiateWindowSize, command, RW.Write, RW.Read, hlen]
            split <;> simpa using this
        · have hb : ¬ WellFormedNaws (data.take 256) := by
            intro h
            have h12 := h.1
            simp at h12
            omega
          have := windowSizeHandler_malformed (data.take 256) (80, 24) hb
          simp only [negotiateWindowSize, command, RW.Write, RW.Read, hlen]
          split <;> simpa using this

theorem keystrokes_ok (rw : RW) (h1 : Step1Ok rw) (h2 : Step2Ok rw) :
    negotiateUnbufferedKeystrokes rw =
      (none, { reads := rw.reads.tail.tail, writes := rw.writes.tail.tail,
               sent := (rw.sent ++ [[255, 251, 3]]) ++ [[255, 251, 1]] }) := by
  have ha : (assert rw [IAC, WILL, SUPPRESS_GO_AHEAD] [IAC, DO, SUPPRESS_GO_AHEAD]).1 = none :=
    (assert_ok_iff rw _ _ (by simp)).2 (by simpa [Step1Ok, IAC, DO, SUPPRESS_GO_AHEAD] using h1)
  have hs := assert_ok_state rw _ _ (by simp) ha
  have hb : (assert (assert rw [IAC, WILL, SUPPRESS_GO_AHEAD] [IAC, DO, SUPPRESS_GO_AHEAD]).2
      [IAC, WILL, ECHO] [IAC, DO, ECHO]).1 = none := by
    rw [hs]
    exact (assert_ok_iff _ _ _ (by simp)).2 (by simpa [Step2Ok, IAC, DO, ECHO] using h2)
  have hs2 := assert_ok_state _ _ _ (by simp) hb
  unfold negotiateUnbufferedKeystrokes
  simp only [ha, hb]
  rw [hs2, hs]
  simp [IAC, WILL, SUPPRESS_GO_AHEAD, ECHO]

theorem keystrokes_fail1 (rw : RW) (h1 : ¬ Step1Ok rw) :
    (negotiateUnbufferedKeystrokes rw).1 ≠ none
      ∧ (negotiateUnbufferedKeystrokes rw).2.sent = rw.sent ++ [[255, 251, 3]] := by
  have ha : (assert rw [IAC, WILL, SUPPRESS_GO_AHEAD] [IAC, DO, SUPPRESS_GO_AHEAD]).1 ≠ none := by
    intro h
    apply h1
    simpa [Step1Ok, IAC, DO, SUPPRESS_GO_AHEAD] using (assert_ok_iff rw _ _ (by simp)).1 h
  have hsent := assert_sent rw [IAC, WILL, SUPPRESS_GO_AHEAD] [IAC, DO, SUPPRESS_GO_AHEAD]
  unfold negotiateUnbufferedKeystrokes
  cases hx : (assert rw [IAC, WILL, SUPPRESS_GO_AHEAD] [IAC, DO, SUPPRESS_GO_AHEAD]).1 with
  | none => exact absurd hx ha
  | some e =>
    simp only [hx]
    refine ⟨by simp, ?_⟩
    simpa [IAC, WILL, SUPPRESS_GO_AHEAD] using hsent

theorem keystrokes_fail2 (rw : RW) (h1 : Step1Ok rw) (h2 : ¬ Step2Ok rw) :
    (negotiateUnbufferedKeystrokes rw).1 ≠ none
      ∧ (negotiateUnbufferedKeystrokes rw).2.sent
          = (rw.sent ++ [[255, 251, 3]]) ++ [[255, 251, 1]] := by
  have ha : (assert rw [IAC, WILL, SUPPRESS_GO_AHEAD] [IAC, DO, SUPPRESS_GO_AHEAD]).1 = none :=
    (assert_ok_iff rw _ _ (by simp)).2 (by simpa [Step1Ok, IAC, DO, SUPPRESS_GO_AHEAD] using h1)
  have hs := assert_ok_state rw _ _ (by simp) ha
  have hb : (assert (assert rw [IAC, WILL, SUPPRESS_GO_AHEAD] [IAC, DO, SUPPRESS_GO_AHEAD]).2
      [IAC, WILL, ECHO] [IAC, DO, ECHO]).1 ≠ none := by
    intro h
    apply h2
    rw [hs] at h
    simpa [Step2Ok, IAC, DO, ECHO] using (assert_ok_iff _ _ _ (by simp)).1 h
  have hsent := assert_sent (assert rw [IAC, WILL, SUPPRESS_GO_AHEAD] [IAC, DO, SUPPRESS_GO_AHEAD]).2
    [IAC, WILL, ECHO] [IAC, DO, ECHO]
  unfold negotiateUnbufferedKeystrokes
  simp only [ha]
  cases hx : (assert (assert rw [IAC, WILL, SUPPRESS_GO_AHEAD] [IAC, DO, SUPPRESS_GO_AHEAD]).2
      [IAC, WILL, ECHO] [IAC, DO, ECHO]).1 with
  | none => exact absurd hx hb
  | some e =>
    simp only [hx]
    refine ⟨by simp, ?_⟩
    rw [hsent, hs]
    simp [IAC, WILL, SUPPRESS_GO_AHEAD, ECHO]

/-- C3. With three successful writes and the peer answering `255 253 3`, then
`255 253 1`, then the 12 bytes `255 251 31 255 250 31 w_hi w_lo h_hi h_lo 255 240`,
`negotiateTelnet` returns width `256*w_hi + w_lo` and height `256*h_hi + h_lo`
(big-endian, every value in 0..65535) with a `nil` error. -/
theorem negotiateTelnet_handshake (whi wlo hhi hlo : Nat)
    (hwhi : whi < 256) (hwlo : wlo < 256) (hhhi : hhi < 256) (hhlo : hlo < 256)
    (rs : List ReadEvent) (ws : List (Option Err)) (sent : List (List Nat)) :
    (negotiateTelnet
      { reads := { data := [255, 253, 3], err := none }
          :: { data := [255, 253, 1], err := none }
          :: { data := [255, 251, 31, 255, 250, 31, whi, wlo, hhi, hlo, 255, 240], err := none }
          :: rs,
        writes := none :: none :: none :: ws,
        sent := sent }).width = 256 * (whi : Int) + wlo
    ∧ (negotiateTelnet
      { reads := { data := [255, 253, 3], err := none }
          :: { data := [255, 253, 1], err := none }
          :: { data := [255, 251, 31, 255, 250, 31, whi, wlo, hhi, hlo, 255, 240], err := none }
          :: rs,
        writes := none :: none :: none :: ws,
        sent := sent }).height = 256 * (hhi : Int) + hlo
    ∧ (negotiateTelnet
      { reads := { data := [255, 253, 3], err := none }
          :: { data := [255, 253, 1], err := none }
          :: { data := [255, 251, 31, 255, 250, 31, whi, wlo, hhi, hlo, 255, 240], err := none }
          :: rs,
        writes := none :: none :: none :: ws,
        sent := sent }).err = none := by
  have hk := keystrokes_ok
    { reads := { data := [255, 253, 3], err := none }
          :: { data := [255, 253, 1], err := none }
          :: { data := [255, 251, 31, 255, 250, 31, whi, wlo, hhi, hlo, 255, 240], err := none }
          :: rs,
      writes := none :: none :: none :: ws,
      sent := sent } (by simp [Step1Ok]) (by simp [Step2Ok])
  have hw : (whi * 256 + wlo) % 65536 = whi * 256 + wlo := Nat.mod_eq_of_lt (by omega)
  have hh : (hhi * 256 + hlo) % 65536 = hhi * 256 + hlo := Nat.mod_eq_of_lt (by omega)
  simp only [negotiateTelnet, hk]
  simp [negotiateWindowSize, command, RW.Write, RW.Read, windowSizeHandler, expect,
    bigEndianUint16, IAC, WILL, DO, NAWS, SB, SE, hw, hh]
  constructor <;> ring

theorem negotiateTelnet_handshake_witness :
    (negotiateTelnet
      { reads := { data := [255, 253, 3], err := none }
          :: { data := [255, 253, 1], err := none }
          :: { data := [255, 251, 31, 255, 250, 31, 0, 132, 0, 43, 255, 240], err := none }
          :: [],
        writes := none :: none :: none :: [],
        sent := [] }).width = 256 * ((0 : Nat) : Int) + (132 : Nat)
    ∧ (negotiateTelnet
      { reads := { data := [255, 253, 3], err := none }
          :: { data := [255, 253, 1], err := none }
          :: { data := [255, 251, 31, 255, 250, 31, 0, 132, 0, 43, 255, 240], err := none }
          :: [],
        writes := none :: none :: none :: [],
        sent := [] }).height = 256 * ((0 : Nat) : Int) + (43 : Nat)
    ∧ (negotiateTelnet
      { reads := { data := [255, 253, 3], err := none }
          :: { data := [255, 253, 1], err := none }
          :: { data := [255, 251, 31, 255, 250, 31, 0, 132, 0, 43, 255, 240], err := none }
          :: [],
        writes := none :: none :: none :: [],
        sent := [] }).err = none :=
  negotiateTelnet_handshake 0 132 0 43 (by decide) (by decide) (by decide) (by decide) [] [] []

/-- C4. When steps 1 and 2 succeeded and step 3 does not deliver a well-formed
response (12 bytes, `255 251 31`, `255 250 31`, four value bytes, `255 240`),
`negotiateTelnet` returns exactly `(80, 24)` with a `nil` error. -/
theorem negotiateTelnet_malformed_defaults (rw : RW) (h1 : Step1Ok rw) (h2 : Step2Ok rw)
    (hbad : ∀ ev, rw.reads.tail.tail.head? = some ev → ev.err = none →
      ¬ WellFormedNaws ev.data) :
    (negotiateTelnet rw).width = 80 ∧ (negotiateTelnet rw).height = 24
      ∧ (negotiateTelnet rw).err = none := by
  have hk := keystrokes_ok rw h1 h2
  have hf := negotiateWindowSize_fallback
    { reads := rw.reads.tail.tail, writes := rw.writes.tail.tail,
      sent := (rw.sent ++ [[255, 251, 3]]) ++ [[255, 251, 1]] } hbad
  simp only [negotiateTelnet, hk]
  rw [hf]
  simp


theorem negotiateTelnet_malformed_defaults_witness :
    (negotiateTelnet shortNawsPeer).width = 80 ∧ (negotiateTelnet shortNawsPeer).height = 24
      ∧ (negotiateTelnet shortNawsPeer).err = none :=
  negotiateTelnet_malformed_defaults shortNawsPeer (by decide) (by decide)
    (by intro ev hev _; simp [shortNawsPeer] at hev; subst hev; decide)

/-- C8. `negotiateTelnet` returns a non-nil error exactly when step 1 or step 2
fails (its write fails, its read fails, or its response is not exactly
`255 253 3` respectively `255 253 1`). When step 1 fails only `255 251 3` was
written; when step 2 fails only `255 251 3` and `255 251 1` were written, the
window-size request `255 253 31` never; when both succeed the error is `nil`
whatever step 3 does. -/
theorem negotiateTelnet_error_iff (rw : RW) :
    ((negotiateTelnet rw).err ≠ none ↔ ¬ (Step1Ok rw ∧ Step2Ok rw))
    ∧ (¬ Step1Ok rw → (negotiateTelnet rw).rw.sent = rw.sent ++ [[255, 251, 3]])
    ∧ (Step1Ok rw → ¬ Step2Ok rw →
        (negotiateTelnet rw).rw.sent = rw.sent ++ [[255, 251, 3], [255, 251, 1]])
    ∧ (Step1Ok rw → Step2Ok rw →
        (negotiateTelnet rw).err = none
        ∧ (negotiateTelnet rw).rw.sent
            = rw.sent ++ [[255, 251, 3], [255, 251, 1], [255, 253, 31]]) := by
  have key1 : ¬ Step1Ok rw →
      (negotiateTelnet rw).err ≠ none
        ∧ (negotiateTelnet rw).rw.sent = rw.sent ++ [[255, 251, 3]] := by
    intro h1
    obtain ⟨he, hs⟩ := keystrokes_fail1 rw h1
    unfold negotiateTelnet
    cases hx : (negotiateUnbufferedKeystrokes rw).1 with
    | none => exact absurd hx he
    | some e => simp only [hx]; exact ⟨by simp, hs⟩
  have key2 : Step1Ok rw → ¬ Step2Ok rw →
      (negotiateTelnet rw).err ≠ none
        ∧ (negotiateTelnet rw).rw.sent = rw.sent ++ [[255, 251, 3], [255, 251, 1]] := by
    intro h1 h2
    obtain ⟨he, hs⟩ := keystrokes_fail2 rw h1 h2
    unfold negotiateTelnet
    cases hx : (negotiateUnbufferedKeystrokes rw).1 with
    | none => exact absurd hx he
    | some e => simp only [hx]; exact ⟨by simp, by simpa using hs⟩
  have key3 : Step1Ok rw → Step2Ok rw →
      (negotiateTelnet rw).err = none
        ∧ (negotiateTelnet rw).rw.sent
            = rw.sent ++ [[255, 251, 3], [255, 251, 1], [255, 253, 31]] := by
    intro h1 h2
    have hk := keystrokes_ok rw h1 h2
    simp only [negotiateTelnet, hk]
    refine ⟨trivial, ?_⟩
    rw [negotiateWindowSize_sent]
    simp
  refine ⟨⟨?_, ?_⟩, fun h => (key1 h).2, fun h1 h2 => (key2 h1 h2).2, key3⟩
  · intro herr hboth
    exact herr (key3 hboth.1 hboth.2).1
  · intro hn
    by_cases h1 : Step1Ok rw
    · by_cases h2 : Step2Ok rw
      · exact absurd ⟨h1, h2⟩ hn
      · exact (key2 h1 h2).1
    · exact (key1 h1).1

theorem negotiateTelnet_error_iff_witness :
    (negotiateTelnet refusingPeer).err ≠ none
      ∧ (negotiateTelnet refusingPeer).rw.sent = [[255, 251, 3], [255, 251, 1]]
      ∧ (negotiateTelnet shortNawsPeer).err = none :=
  ⟨(negotiateTelnet_error_iff refusingPeer).1.2 (by decide),
   (negotiateTelnet_error_iff refusingPeer).2.2.1 (by decide) (by decide),
   ((negotiateTelnet_error_iff shortNawsPeer).2.2.2 (by decide) (by decide)).1⟩

/-! ### The frame splitter -/

theorem ReadBytes_not_mem (d : Nat) (s : List Nat) (h : d ∉ s) :
    ReadBytes d s = (s, some Err.eof, []) := by
  induction s with
  | nil => rfl
  | cons b rest ih =>
    have hb : ¬ (b = d) := fun e => h (by simp [e])
    have hr : d ∉ rest := fun e => h (by simp [e])
    simp [ReadBytes, hb, ih hr]

theorem ReadBytes_split (d : Nat) (pre rest : List Nat) (h : d ∉ pre) :
    ReadBytes d (pre ++ d :: rest) = (pre ++ [d], none, rest) := by
  induction pre with
  | nil => simp [ReadBytes]
  | cons b pre ih =>
    have hb : ¬ (b = d) := fun e => h (by simp [e])
    have hr : d ∉ pre := fun e => h (by simp [e])
    simp [ReadBytes, hb, ih hr]

theorem endsEOI_iff_check (t : List Nat) :
    (t.length > 1 ∧ t.drop (t.length - 2) = [0xff, 0xd9]) ↔ EndsEOI t := by
  unfold EndsEOI
  constructor
  · rintro ⟨_, h⟩
    have := List.drop_suffix (t.length - 2) t
    rwa [h] at this
  · intro h
    have hlen := h.length_le
    simp at hlen
    refine ⟨by omega, ?_⟩
    have := List.suffix_iff_eq_drop.1 h
    simpa using this.symm

theorem endsEOI_append_left (a g : List Nat) (h : EndsEOI g) : EndsEOI (a ++ g) := by
  unfold EndsEOI at *
  exact h.trans (List.suffix_append a g)

/-- When a buffer ending in the marker is cut after a `0xD9` that does not end
it, what follows the cut still ends in the marker. -/
theorem endsEOI_after_token (pre post : List Nat)
    (hf : EndsEOI (pre ++ 217 :: post)) (ht : ¬ EndsEOI (pre ++ [217])) : EndsEOI post := by
  obtain ⟨q, hq⟩ := hf
  have hq2 : q ++ [255, 217] = pre ++ 217 :: post := hq
  rcases List.append_eq_append_iff.1 hq2 with ⟨a, ha1, ha2⟩ | ⟨c, hc1, hc2⟩
  · -- pre = q ++ a, [255, 217] = a ++ 217 :: post
    cases a with
    | nil => simp at ha2
    | cons x a =>
      cases a with
      | nil =>
        simp at ha2
        obtain ⟨hx, hp⟩ := ha2
        exfalso
        apply ht
        subst hx
        rw [ha1]
        exact ⟨q, by simp⟩
      | cons y a => simp at ha2
  · -- q = pre ++ c, 217 :: post = c ++ [255, 217]
    cases c with
    | nil => simp at hc2
    | cons x c =>
      simp at hc2
      exact ⟨c, hc2.2.symm⟩

theorem readFrameLoop_frame (fuel : Nat) :
    ∀ (f buf r : List Nat), f.length ≤ fuel → EndsEOI f →
      (∀ g, g <+: f → EndsEOI g → g = f) →
      readFrameLoop fuel buf (f ++ r) = some (FrameResult.frame (buf ++ f), r) := by
  induction fuel with
  | zero =>
    intro f buf r hlen hend _
    have := hend.length_le
    simp at this
    omega
  | succ fuel ih =>
    intro f buf r hlen hend hmin
    have hmem : 217 ∈ f := by
      obtain ⟨q, hq⟩ := hend
      rw [← hq]; simp
    obtain ⟨pre, post, hsplit, hpre⟩ := List.eq_append_cons_of_mem hmem
    have hrb : ReadBytes 0xd9 (f ++ r) = (pre ++ [217], none, post ++ r) := by
      rw [hsplit]
      simpa using ReadBytes_split 217 pre (post ++ r) hpre
    by_cases htok : EndsEOI (pre ++ [217])
    · have heq : pre ++ [217] = f := hmin _ (by rw [hsplit]; exact ⟨post, by simp⟩) htok
      have hpost : post = [] := by
        have h4 := List.append_cancel_left (heq.trans hsplit)
        cases post with
        | nil => rfl
        | cons x post => simp at h4
      have hchk := (endsEOI_iff_check (pre ++ [217])).2 htok
      simp only [readFrameLoop, hrb]
      rw [if_pos hchk, heq, hpost]
      simp
    · have hchk : ¬ ((pre ++ [217]).length > 1 ∧
          (pre ++ [217]).drop ((pre ++ [217]).length - 2) = [0xff, 0xd9]) :=
        fun h => htok ((endsEOI_iff_check _).1 h)
      have hpostend : EndsEOI post := endsEOI_after_token pre post (hsplit ▸ hend) htok
      have hpostmin : ∀ g, g <+: post → EndsEOI g → g = post := by
        intro g hg hge
        have h1 : (pre ++ [217]) ++ g <+: f := by
          rw [hsplit]
          have : pre ++ 217 :: post = (pre ++ [217]) ++ post := by simp
          rw [this]
          exact (List.prefix_append_right_inj _).2 hg
        have h2 := hmin _ h1 (endsEOI_append_left _ g hge)
        rw [hsplit] at h2
        have : pre ++ 217 :: post = (pre ++ [217]) ++ post := by simp
        rw [this] at h2
        exact List.append_cancel_left h2
      have hpostlen : post.length ≤ fuel := by
        have := congrArg List.length hsplit
        simp at this
        omega
      simp only [readFrameLoop, hrb]
      rw [if_neg hchk, ih post (buf ++ (pre ++ [217])) r hpostlen hpostend hpostmin, hsplit]
      simp

theorem readFrameLoop_fail (fuel : Nat) :
    ∀ (s buf : List Nat), s.length < fuel → ¬ ([255, 217] <:+: s) →
      readFrameLoop fuel buf s = some (FrameResult.fail Err.eof, []) := by
  induction fuel with
  | zero => intro s buf hlen; omega
  | succ fuel ih =>
    intro s buf hlen hno
    by_cases hmem : 217 ∈ s
    · obtain ⟨pre, post, hsplit, hpre⟩ := List.eq_append_cons_of_mem hmem
      have hrb : ReadBytes 0xd9 s = (pre ++ [217], none, post) := by
        rw [hsplit]
        simpa using ReadBytes_split 217 pre post hpre
      have htok : ¬ EndsEOI (pre ++ [217]) := by
        intro h
        apply hno
        rw [hsplit]
        have hp : pre ++ [217] <+: pre ++ 217 :: post := ⟨post, by simp⟩
        exact List.infix_iff_prefix_suffix.2 ⟨[255, 217], List.prefix_refl _, h⟩ |>.trans
          hp.isInfix
      have hchk : ¬ ((pre ++ [217]).length > 1 ∧
          (pre ++ [217]).drop ((pre ++ [217]).length - 2) = [0xff, 0xd9]) :=
        fun h => htok ((endsEOI_iff_check _).1 h)
      have hpostlen : post.length < fuel := by
        have := congrArg List.length hsplit
        simp at this
        omega
      have hpostno : ¬ ([255, 217] <:+: post) := by
        intro h
        apply hno
        rw [hsplit]
        exact h.trans ((List.suffix_cons 217 post).isInfix.trans
          (List.suffix_append pre (217 :: post)).isInfix)
      simp only [readFrameLoop, hrb]
      rw [if_neg hchk]
      exact ih post _ hpostlen hpostno
    · simp only [readFrameLoop]
      rw [ReadBytes_not_mem 217 s hmem]

theorem readFrameLoop_isSome (fuel : Nat) :
    ∀ (s buf : List Nat), s.length < fuel → (readFrameLoop fuel buf s).isSome = true := by
  induction fuel with
  | zero => intro s buf hlen; omega
  | succ fuel ih =>
    intro s buf hlen
    by_cases hmem : 217 ∈ s
    · obtain ⟨pre, post, hsplit, hpre⟩ := List.eq_append_cons_of_mem hmem
      have hrb : ReadBytes 0xd9 s = (pre ++ [217], none, post) := by
        rw [hsplit]
        simpa using ReadBytes_split 217 pre post hpre
      have hpostlen : post.length < fuel := by
        have := congrArg List.length hsplit
        simp at this
        omega
      simp only [readFrameLoop, hrb]
      split
      · rfl
      · exact ih post _ hpostlen
    · simp only [readFrameLoop]
      rw [ReadBytes_not_mem 217 s hmem]
      rfl

theorem readFrame_total (s : List Nat) : (readFrame s).isSome = true :=
  readFrameLoop_isSome _ s [] (Nat.lt_succ_self _)

theorem isFrame_minimal (f : List Nat) (hf : IsFrame f) :
    ∀ g, g <+: f → EndsEOI g → g = f := by
  intro g hg hge
  have hle := hg.length_le
  rcases Nat.lt_or_ge g.length f.length with hlt | hge2
  · exact absurd (by rw [← List.prefix_iff_eq_take.1 hg]; exact hge) (hf.2 g.length hlt)
  · exact hg.eq_of_length (by omega)

theorem readFrame_frame (f r : List Nat) (hf : IsFrame f) :
    readFrame (f ++ r) = some (FrameResult.frame f, r) := by
  have := readFrameLoop_frame ((f ++ r).length + 1) f [] r (by simp; omega) hf.1
    (isFrame_minimal f hf)
  simpa [readFrame] using this


theorem endsEOI_token_iff_accumulated (buf pre : List Nat)
    (hbuf : buf = [] ∨ [217] <:+ buf) :
    EndsEOI (pre ++ [217]) ↔ EndsEOI (buf ++ (pre ++ [217])) := by
  constructor
  · exact endsEOI_append_left buf _
  · rintro ⟨q, hq⟩
    have hq2 : (q ++ [255]) ++ [217] = (buf ++ pre) ++ [217] := by simpa using hq
    have hq3 : q ++ [255] = buf ++ pre := List.append_cancel_right hq2
    rcases List.eq_nil_or_concat pre with hp | ⟨pre2, z, hp⟩
    · subst hp
      rcases hbuf with hb | ⟨q2, hb⟩
      · subst hb
        simp at hq3
      · rw [← hb] at hq3
        have hq4 : q ++ [255] = q2 ++ [217] := by simpa using hq3
        have := List.append_inj_right' hq4 rfl
        simp at this
    · subst hp
      have hq4 : q ++ [255] = (buf ++ pre2) ++ [z] := by simpa using hq3
      have hz := List.append_inj_right' hq4 rfl
      have hz2 : z = 255 := by simpa using hz.symm
      subst hz2
      exact ⟨pre2, by simp⟩

/-- C5. `readFrame` returns exactly the shortest non-empty prefix of the unread
bytes whose last two bytes are `0xFF 0xD9` and consumes exactly those bytes;
the check made on each `0xD9`-terminated chunk agrees with the check on the
last two accumulated bytes; a stream of two concatenated buffers that each end
in `0xFF 0xD9` and contain the pair nowhere else yields those two buffers in
order and then end-of-stream; when the unread bytes contain no `0xFF 0xD9` pair
the result is the end-of-stream error and no frame. The loop always returns. -/
theorem readFrame_shortest_marker_terminated :
    (∀ s f : List Nat, f <+: s → EndsEOI f →
        (∀ n, n < f.length → ¬ EndsEOI (s.take n)) →
        readFrame s = some (FrameResult.frame f, s.drop f.length))
    ∧ (∀ buf pre : List Nat, (buf = [] ∨ [217] <:+ buf) →
        (((pre ++ [217]).length > 1 ∧
            (pre ++ [217]).drop ((pre ++ [217]).length - 2) = [0xff, 0xd9])
          ↔ [0xff, 0xd9] <:+ buf ++ (pre ++ [217])))
    ∧ (∀ a b : List Nat, IsFrame a → IsFrame b →
        readFrame (a ++ b) = some (FrameResult.frame a, b)
        ∧ readFrame b = some (FrameResult.frame b, [])
        ∧ readFrame [] = some (FrameResult.fail Err.eof, []))
    ∧ (∀ s : List Nat, ¬ ([0xff, 0xd9] <:+: s) →
        readFrame s = some (FrameResult.fail Err.eof, []))
    ∧ (∀ s : List Nat, (readFrame s).isSome = true) := by
  refine ⟨?_, ?_, ?_, ?_, readFrame_total⟩
  · intro s f hpre hend hmin
    obtain ⟨r, hr⟩ := hpre
    subst hr
    have hf : IsFrame f := by
      refine ⟨hend, ?_⟩
      intro n hn
      have := hmin n hn
      rwa [List.take_append_of_le_length (Nat.le_of_lt hn)] at this
    simpa using readFrame_frame f r hf
  · intro buf pre hbuf
    rw [endsEOI_iff_check]
    exact endsEOI_token_iff_accumulated buf pre hbuf
  · intro a b ha hb
    refine ⟨readFrame_frame a b ha, ?_, by decide⟩
    simpa using readFrame_frame b [] hb
  · intro s hs
    exact readFrameLoop_fail _ s [] (Nat.lt_succ_self _) hs

theorem readFrame_shortest_marker_terminated_witness :
    readFrame threeFrames = some (FrameResult.frame [1, 255, 217], threeFrames.drop 3)
    ∧ (readFrame ([1, 255, 217] ++ [2, 255, 217]) = some (FrameResult.frame [1, 255, 217], [2, 255, 217])
        ∧ readFrame [2, 255, 217] = some (FrameResult.frame [2, 255, 217], [])
        ∧ readFrame [] = some (FrameResult.fail Err.eof, []))
    ∧ readFrame [255, 216, 217, 255] = some (FrameResult.fail Err.eof, []) :=
  ⟨readFrame_shortest_marker_terminated.1 threeFrames [1, 255, 217] (by decide) (by decide)
      (by decide),
   readFrame_shortest_marker_terminated.2.2.1 [1, 255, 217] [2, 255, 217] (by decide) (by decide),
   readFrame_shortest_marker_terminated.2.2.2.1 [255, 216, 217, 255] (by decide)⟩


/-! ### The playback loop -/

theorem HandoffInv.sublist {α : Type} {s : LoopState α} (h : HandoffInv s) :
    List.Sublist s.delivered (s.decoded.map some) := by
  cases ho : s.out with
  | false =>
    rcases h.2 ho with ⟨hd, hl⟩ | ⟨d, img, dl, hd, hl, hsub⟩
    · rw [hd, hl]; exact List.Sublist.refl _
    · rw [hd, hl, List.map_append]
      exact hsub.append (List.Sublist.refl _)
  | true =>
    obtain ⟨d, img, hd, _, hsub⟩ := h.1 ho
    rw [hd, List.map_append]
    exact hsub.trans (List.sublist_append_left _ _)

theorem handoffInv_step {α : Type} (decode : List Nat → Option α) (s t : LoopState α)
    (e : Event) (hinv : HandoffInv s) (hstep : handleWriter.step decode s e = some t) :
    HandoffInv t := by
  cases e with
  | tick =>
    simp only [handleWriter.step] at hstep
    split at hstep
    · simp at hstep
    · split at hstep
      · simp at hstep
      · simp at hstep
        subst hstep
        exact hinv
      · split at hstep
        · simp at hstep
          subst hstep
          exact hinv
        · split at hstep
          · simp at hstep
            subst hstep
            exact hinv
          · rename_i img _
            simp at hstep
            subst hstep
            refine ⟨fun _ => ⟨s.decoded, img, rfl, rfl, hinv.sublist⟩, ?_⟩
            intro h
            simp at h
  | accept =>
    simp only [handleWriter.step] at hstep
    split at hstep
    · simp at hstep
    · split at hstep
      · rename_i hout
        simp at hstep
        subst hstep
        obtain ⟨d, img, hd, hf, hsub⟩ := hinv.1 hout
        refine ⟨fun h => by simp at h, fun _ => Or.inr ⟨d, img, s.delivered, hd, ?_, hsub⟩⟩
        simp only [hf]
      · simp at hstep
  | cancel =>
    simp only [handleWriter.step] at hstep
    split at hstep
    · simp at hstep
    · simp at hstep
      subst hstep
      exact hinv

theorem handoffInv_run {α : Type} (decode : List Nat → Option α) (es : List Event) :
    ∀ (s t : LoopState α), HandoffInv s → handleWriter.run decode s es = some t →
      HandoffInv t := by
  induction es with
  | nil =>
    intro s t hinv hrun
    simp [handleWriter.run] at hrun
    subst hrun
    exact hinv
  | cons e es ih =>
    intro s t hinv hrun
    simp only [handleWriter.run] at hrun
    cases hstep : handleWriter.step decode s e with
    | none => simp [hstep] at hrun
    | some u =>
      simp only [hstep] at hrun
      exact ih u t (handoffInv_step decode s u e hinv hstep) hrun

theorem handoffInv_enterLoop {α : Type} (src : List Nat) :
    HandoffInv (handleWriter.enterLoop src : LoopState α) := by
  refine ⟨fun h => ?_, fun _ => Or.inl ⟨rfl, rfl⟩⟩
  simp [handleWriter.enterLoop] at h


theorem step_tick_even {α : Type} (decode : List Nat → Option α) (s : LoopState α)
    (f r : List Nat) (hs : s.stopped = false)
    (hr : readFrame s.src = some (FrameResult.frame f, r)) (hm : (s.m + 1) % 2 = 0) :
    handleWriter.step decode s Event.tick = some { s with m := s.m + 1, src := r } := by
  simp [handleWriter.step, hs, hr, hm]

theorem step_tick_odd {α : Type} (decode : List Nat → Option α) (s : LoopState α)
    (f r : List Nat) (i : α) (hs : s.stopped = false)
    (hr : readFrame s.src = some (FrameResult.frame f, r)) (hm : ¬ ((s.m + 1) % 2 = 0))
    (hd : decode f = some i) :
    handleWriter.step decode s Event.tick =
      some { s with m := s.m + 1, src := r, out := true, frame := some i,
                    decoded := s.decoded ++ [i] } := by
  simp [handleWriter.step, hs, hr, hm, hd]

theorem step_accept {α : Type} (decode : List Nat → Option α) (s : LoopState α)
    (hs : s.stopped = false) (ho : s.out = true) :
    handleWriter.step decode s Event.accept =
      some { s with out := false, delivered := s.delivered ++ [s.frame] } := by
  simp [handleWriter.step, hs, ho]

theorem step_accept_inv {α : Type} (decode : List Nat → Option α) (s t : LoopState α)
    (h : handleWriter.step decode s Event.accept = some t) :
    s.stopped = false ∧ s.out = true
      ∧ t = { s with out := false, delivered := s.delivered ++ [s.frame] } := by
  simp only [handleWriter.step] at h
  split at h
  · simp at h
  · rename_i hs
    split at h
    · rename_i ho
      simp at h
      exact ⟨by simpa using hs, ho, h.symm⟩
    · simp at h

theorem readFrames_succ (n : Nat) (src : List Nat) (fs : List (List Nat)) (rest : List Nat)
    (h : readFrames (n + 1) src = some (fs, rest)) :
    ∃ f fs2 r1, readFrame src = some (FrameResult.frame f, r1)
      ∧ readFrames n r1 = some (fs2, rest) ∧ fs = f :: fs2 := by
  simp only [readFrames] at h
  split at h
  · rename_i f r1 hrf
    split at h
    · rename_i fs2 r hrs
      simp at h
      exact ⟨f, fs2, r1, hrf, by rw [hrs, h.2], h.1.symm⟩
    · simp at h
  · simp at h

theorem keptFrom_getElem (fs : List (List Nat)) :
    ∀ (m j : Nat), (keptFrom m fs)[j]? = fs[2 * j + m % 2]? := by
  induction fs with
  | nil => intro m j; simp [keptFrom]
  | cons f fs ih =>
    intro m j
    by_cases hm : (m + 1) % 2 = 0
    · have h1 : m % 2 = 1 := by omega
      simp only [keptFrom, hm, if_true]
      rw [ih (m + 1) j, hm, h1]
      simp
    · have h0 : m % 2 = 0 := by omega
      have h1 : (m + 1) % 2 = 1 := by omega
      simp only [keptFrom, hm, if_false]
      cases j with
      | zero => simp [h0]
      | succ j =>
        rw [List.getElem?_cons_succ, ih (m + 1) j, h1, h0]
        have : 2 * (j + 1) + 0 = (2 * j + 1) + 1 := by ring
        rw [this, List.getElem?_cons_succ]

theorem keptFrom_length (fs : List (List Nat)) :
    ∀ m : Nat, (keptFrom m fs).length = (fs.length + 1 - m % 2) / 2 := by
  induction fs with
  | nil => intro m; simp [keptFrom]; omega
  | cons f fs ih =>
    intro m
    by_cases hm : (m + 1) % 2 = 0
    · simp only [keptFrom, hm, if_true]
      rw [ih (m + 1)]
      simp only [List.length_cons]
      omega
    · simp only [keptFrom, hm, if_false, List.length_cons]
      rw [ih (m + 1)]
      omega

theorem readFrames_length (n : Nat) :
    ∀ (src : List Nat) (fs : List (List Nat)) (rest : List Nat),
      readFrames n src = some (fs, rest) → fs.length = n := by
  induction n with
  | zero => intro src fs rest h; simp [readFrames] at h; simp [h.1.symm]
  | succ n ih =>
    intro src fs rest h
    obtain ⟨f, fs2, r1, _, h2, h3⟩ := readFrames_succ n src fs rest h
    rw [h3, List.length_cons, ih r1 fs2 rest h2]

theorem run_decimation {α : Type} (decode : List Nat → Option α) (img : List Nat → α)
    (es : List Event) :
    ∀ (s0 s : LoopState α) (n : Nat) (fs : List (List Nat)) (rest : List Nat),
      s0.stopped = false → readFrames n s0.src = some (fs, rest) →
      (∀ f ∈ keptFrom s0.m fs, decode f = some (img f)) → Event.cancel ∉ es →
      ticks es = n →
      handleWriter.run decode s0 es = some s →
      s.m = s0.m + n ∧ s.src = rest ∧ s.stopped = false
        ∧ s.decoded = s0.decoded ++ (keptFrom s0.m fs).map img := by
  induction es with
  | nil =>
    intro s0 s n fs rest hs hrf _ _ hn hrun
    simp [ticks] at hn
    subst hn
    simp [readFrames] at hrf
    obtain ⟨hfs, hsrc⟩ := hrf
    subst hfs
    simp [handleWriter.run] at hrun
    subst hrun
    simp [hsrc, keptFrom, hs]
  | cons e es ih =>
    intro s0 s n fs rest hs hrf hdec hnc hn hrun
    have hnc2 : Event.cancel ∉ es := fun h => hnc (List.mem_cons_of_mem _ h)
    cases e with
    | cancel => simp at hnc
    | accept =>
      simp only [handleWriter.run] at hrun
      cases hstep : handleWriter.step decode s0 Event.accept with
      | none => simp [hstep] at hrun
      | some t =>
        simp only [hstep] at hrun
        obtain ⟨_, _, ht⟩ := step_accept_inv decode s0 t hstep
        have hn2 : ticks es = n := by simpa [ticks, List.count_cons] using hn
        have := ih t s n fs rest (by rw [ht]; exact hs) (by rw [ht]; exact hrf)
          (by rw [ht]; exact hdec) hnc2 hn2 hrun
        rw [ht] at this
        exact this
    | tick =>
      have hn2 : ticks es + 1 = n := by simpa [ticks, List.count_cons] using hn
      subst hn2
      obtain ⟨f, fs2, r1, hr1, hr2, hfs⟩ := readFrames_succ _ _ _ _ hrf
      subst hfs
      simp only [handleWriter.run] at hrun
      by_cases hm : (s0.m + 1) % 2 = 0
      · have hdec2 : ∀ g ∈ keptFrom (s0.m + 1) fs2, decode g = some (img g) :=
          fun g hg => hdec g (by simpa [keptFrom, hm] using hg)
        rw [step_tick_even decode s0 f r1 hs hr1 hm] at hrun
        simp only at hrun
        have := ih { s0 with m := s0.m + 1, src := r1 } s (ticks es) fs2 rest hs hr2 hdec2
          hnc2 rfl hrun
        simp only at this
        obtain ⟨h1, h2, h3, h4⟩ := this
        refine ⟨by omega, h2, h3, ?_⟩
        rw [h4]
        simp [keptFrom, hm]
      · have hdf : decode f = some (img f) := hdec f (by simp [keptFrom, hm])
        have hdec2 : ∀ g ∈ keptFrom (s0.m + 1) fs2, decode g = some (img g) :=
          fun g hg => hdec g (by simp [keptFrom, hm, hg])
        rw [step_tick_odd decode s0 f r1 (img f) hs hr1 hm hdf] at hrun
        simp only at hrun
        have := ih { s0 with m := s0.m + 1, src := r1, out := true, frame := some (img f),
                             decoded := s0.decoded ++ [img f] } s (ticks es) fs2 rest hs hr2
          hdec2 hnc2 rfl hrun
        simp only at this
        obtain ⟨h1, h2, h3, h4⟩ := this
        refine ⟨by omega, h2, h3, ?_⟩
        rw [h4]
        simp [keptFrom, hm]

theorem run_ticks_exists {α : Type} (decode : List Nat → Option α) (img : List Nat → α)
    (n : Nat) :
    ∀ (s0 : LoopState α) (fs : List (List Nat)) (rest : List Nat),
      s0.stopped = false → readFrames n s0.src = some (fs, rest) →
      (∀ f ∈ keptFrom s0.m fs, decode f = some (img f)) →
      ∃ s, handleWriter.run decode s0 (List.replicate n Event.tick) = some s := by
  induction n with
  | zero => intro s0 fs rest _ _ _; exact ⟨s0, rfl⟩
  | succ n ih =>
    intro s0 fs rest hs hrf hdec
    obtain ⟨f, fs2, r1, hr1, hr2, hfs⟩ := readFrames_succ _ _ _ _ hrf
    subst hfs
    simp only [List.replicate_succ, handleWriter.run]
    by_cases hm : (s0.m + 1) % 2 = 0
    · have hdec2 : ∀ g ∈ keptFrom (s0.m + 1) fs2, decode g = some (img g) :=
        fun g hg => hdec g (by simpa [keptFrom, hm] using hg)
      rw [step_tick_even decode s0 f r1 hs hr1 hm]
      exact ih { s0 with m := s0.m + 1, src := r1 } fs2 rest hs hr2 hdec2
    · have hdf : decode f = some (img f) := hdec f (by simp [keptFrom, hm])
      have hdec2 : ∀ g ∈ keptFrom (s0.m + 1) fs2, decode g = some (img g) :=
        fun g hg => hdec g (by simp [keptFrom, hm, hg])
      rw [step_tick_odd decode s0 f r1 (img f) hs hr1 hm hdf]
      exact ih { s0 with m := s0.m + 1, src := r1, out := true, frame := some (img f),
                         decoded := s0.decoded ++ [img f] } fs2 rest hs hr2 hdec2

theorem run_keepingUp {α : Type} (decode : List Nat → Option α) (img : List Nat → α)
    (n : Nat) :
    ∀ (s0 : LoopState α) (fs : List (List Nat)) (rest : List Nat),
      s0.stopped = false → s0.out = false → readFrames n s0.src = some (fs, rest) →
      (∀ f ∈ keptFrom s0.m fs, decode f = some (img f)) →
      ∃ s, handleWriter.run decode s0 (keepingUp s0.m n) = some s ∧ s.out = false
        ∧ s.decoded = s0.decoded ++ (keptFrom s0.m fs).map img
        ∧ s.delivered = s0.delivered ++ ((keptFrom s0.m fs).map img).map some := by
  induction n with
  | zero =>
    intro s0 fs rest _ ho hrf _
    simp [readFrames] at hrf
    obtain ⟨hfs, _⟩ := hrf
    subst hfs
    exact ⟨s0, rfl, ho, by simp [keptFrom], by simp [keptFrom]⟩
  | succ n ih =>
    intro s0 fs rest hs ho hrf hdec
    obtain ⟨f, fs2, r1, hr1, hr2, hfs⟩ := readFrames_succ _ _ _ _ hrf
    subst hfs
    by_cases hm : (s0.m + 1) % 2 = 0
    · have hdec2 : ∀ g ∈ keptFrom (s0.m + 1) fs2, decode g = some (img g) :=
        fun g hg => hdec g (by simpa [keptFrom, hm] using hg)
      simp only [keepingUp, hm, if_true, handleWriter.run]
      rw [step_tick_even decode s0 f r1 hs hr1 hm]
      obtain ⟨s, h1, h2, h3, h4⟩ := ih { s0 with m := s0.m + 1, src := r1 } fs2 rest hs ho hr2 hdec2
      exact ⟨s, h1, h2, by simpa [keptFrom, hm] using h3, by simpa [keptFrom, hm] using h4⟩
    · have hdf : decode f = some (img f) := hdec f (by simp [keptFrom, hm])
      have hdec2 : ∀ g ∈ keptFrom (s0.m + 1) fs2, decode g = some (img g) :=
        fun g hg => hdec g (by simp [keptFrom, hm, hg])
      simp only [keepingUp, hm, if_false, handleWriter.run]
      rw [step_tick_odd decode s0 f r1 (img f) hs hr1 hm hdf]
      simp only
      have hacc := step_accept decode
        { s0 with m := s0.m + 1, src := r1, out := true, frame := some (img f),
                  decoded := s0.decoded ++ [img f] } hs rfl
      rw [hacc]
      simp only
      obtain ⟨s, h1, h2, h3, h4⟩ := ih
        { s0 with m := s0.m + 1, src := r1, out := false, frame := some (img f),
                  decoded := s0.decoded ++ [img f],
                  delivered := s0.delivered ++ [some (img f)] } fs2 rest hs rfl hr2 hdec2
      exact ⟨s, h1, h2, by simpa [keptFrom, hm] using h3, by simpa [keptFrom, hm] using h4⟩


/-- C6 (counterexample). Five frames in the source. Frame 1 is staged and
handed to the print task, which is then busy; frame 2 is dropped by the
decimation; the third tick stages frame 3; the fourth tick reads frame 4 from
the source while frame 3 is still pending; the fifth tick replaces the pending
frame 3 by frame 5; the next hand-off delivers frame 5. Frame 3 was decoded and
never delivered, so it is false that whenever no hand-off is pending every
decoded frame has been delivered. -/
theorem handleWriter_pending_frame_replaced :
    (handleWriter.run decodeBytes (handleWriter.enterLoop fiveFrames)
        [Event.tick, Event.accept, Event.tick, Event.tick]).map
          (fun s => (s.out, s.frame, s.src))
      = some (true, some [3, 255, 217], [4, 255, 217, 5, 255, 217])
    ∧ (handleWriter.run decodeBytes (handleWriter.enterLoop fiveFrames)
        [Event.tick, Event.accept, Event.tick, Event.tick, Event.tick]).map
          (fun s => (s.out, s.frame, s.src))
      = some (true, some [3, 255, 217], [5, 255, 217])
    ∧ (handleWriter.run decodeBytes (handleWriter.enterLoop fiveFrames)
        [Event.tick, Event.accept, Event.tick, Event.tick, Event.tick, Event.tick]).map
          (fun s => (s.out, s.frame, s.src))
      = some (true, some [5, 255, 217], [])
    ∧ (handleWriter.run decodeBytes (handleWriter.enterLoop fiveFrames)
        [Event.tick, Event.accept, Event.tick, Event.tick, Event.tick, Event.tick,
         Event.accept]).map (fun s => (s.out, s.decoded, s.delivered))
      = some (false, [[1, 255, 217], [3, 255, 217], [5, 255, 217]],
              [some [1, 255, 217], some [5, 255, 217]])
    ∧ ¬ (∀ (es : List Event) (s : LoopState (List Nat)),
          handleWriter.run decodeBytes (handleWriter.enterLoop fiveFrames) es = some s →
          s.out = false → s.delivered = s.decoded.map some) := by
  refine ⟨by decide, by decide, by decide, by decide, ?_⟩
  intro h
  have h2 := h [Event.tick, Event.accept, Event.tick, Event.tick, Event.tick, Event.tick,
      Event.accept]
    { m := 5, out := false, frame := some [5, 255, 217], src := [], stopped := false,
      decoded := [[1, 255, 217], [3, 255, 217], [5, 255, 217]],
      delivered := [some [1, 255, 217], some [5, 255, 217]] }
    (by decide) rfl
  exact absurd h2 (by decide)

theorem step_tick_frame {α : Type} (decode : List Nat → Option α) (s : LoopState α)
    (f rest : List Nat) (hf : IsFrame f) (hsrc : s.src = f ++ rest)
    (hs : s.stopped = false) :
    handleWriter.step decode s Event.tick =
      some (if (s.m + 1) % 2 = 0 then { s with m := s.m + 1, src := rest }
        else
          match decode f with
          | some img =>
            { s with m := s.m + 1, src := rest, out := true, frame := some img,
                     decoded := s.decoded ++ [img] }
          | none => { s with m := s.m + 1, src := rest, stopped := true }) := by
  have hr : readFrame s.src = some (FrameResult.frame f, rest) := by
    rw [hsrc]; exact readFrame_frame f rest hf
  by_cases hm : (s.m + 1) % 2 = 0
  · simp [handleWriter.step, hs, hr, hm]
  · cases hd : decode f <;> simp [handleWriter.step, hs, hr, hm, hd]

theorem step_tick_isSome {α : Type} (decode : List Nat → Option α) (s : LoopState α)
    (hs : s.stopped = false) : (handleWriter.step decode s Event.tick).isSome = true := by
  have htot := readFrame_total s.src
  simp only [handleWriter.step, hs]
  cases hr : readFrame s.src with
  | none => simp [hr] at htot
  | some r =>
    rcases r with ⟨res, rest⟩
    cases res with
    | fail e => simp
    | frame f =>
      simp only [Bool.false_eq_true, if_false]
      split
      · rfl
      · split <;> rfl

theorem step_stopped {α : Type} (decode : List Nat → Option α) (s : LoopState α)
    (hs : s.stopped = true) (e : Event) : handleWriter.step decode s e = none := by
  cases e <;> simp [handleWriter.step, hs]

/-- C6 (amended). In every state the streaming loop can reach: (1) the values
delivered to the print task are a subsequence, in order, of the decoded images,
so each decoded image is delivered at most once; (2) the most recently decoded
image is either still pending (`out = printCh`, `frame` holds it) or is the last
value the print task received, so an image is lost only by being replaced;
(3) a completed hand-off delivers exactly the pending image and reads nothing;
(4) the timer case is enabled whether or not a hand-off is pending, and with a
frame `f` next in the source a tick consumes exactly `f`: when the counter
becomes even the pending image stays pending, when it becomes odd the image
decoded from `f` replaces it (a decode error ends the loop); (5) a cancel ends
the loop, and once the loop has returned no case is taken any more. -/
theorem handleWriter_delivers_latest_in_order {α : Type} (decode : List Nat → Option α)
    (src : List Nat) (es : List Event) (s : LoopState α)
    (hrun : handleWriter.run decode (handleWriter.enterLoop src) es = some s) :
    List.Sublist s.delivered (s.decoded.map some)
    ∧ (s.decoded = [] → s.out = false ∧ s.delivered = [])
    ∧ (∀ d img, s.decoded = d ++ [img] →
        (s.out = true ∧ s.frame = some img ∧ List.Sublist s.delivered (d.map some))
        ∨ (s.out = false ∧ ∃ dl, s.delivered = dl ++ [some img]
            ∧ List.Sublist dl (d.map some)))
    ∧ (s.stopped = false → s.out = true →
        handleWriter.step decode s Event.accept
          = some { s with out := false, delivered := s.delivered ++ [s.decoded.getLast?] })
    ∧ (s.out = false → handleWriter.step decode s Event.accept = none)
    ∧ (s.stopped = false → (handleWriter.step decode s Event.tick).isSome = true)
    ∧ (∀ f rest, IsFrame f → s.src = f ++ rest → s.stopped = false →
        handleWriter.step decode s Event.tick =
          some (if (s.m + 1) % 2 = 0 then { s with m := s.m + 1, src := rest }
            else
              match decode f with
              | some img =>
                { s with m := s.m + 1, src := rest, out := true, frame := some img,
                         decoded := s.decoded ++ [img] }
              | none => { s with m := s.m + 1, src := rest, stopped := true }))
    ∧ (s.stopped = false →
        handleWriter.step decode s Event.cancel = some { s with stopped := true })
    ∧ (s.stopped = true → ∀ e, handleWriter.step decode s e = none) := by
  have hinv := handoffInv_run decode es _ s (handoffInv_enterLoop src) hrun
  refine ⟨hinv.sublist, ?_, ?_, ?_, ?_, step_tick_isSome decode s, ?_, ?_,
    step_stopped decode s⟩
  · intro hd
    cases ho : s.out with
    | true =>
      obtain ⟨d, img, hd2, _, _⟩ := hinv.1 ho
      rw [hd] at hd2
      simp at hd2
    | false =>
      rcases hinv.2 ho with ⟨_, hl⟩ | ⟨d, img, dl, hd2, _, _⟩
      · exact ⟨rfl, hl⟩
      · rw [hd] at hd2
        simp at hd2
  · intro d img hd
    cases ho : s.out with
    | true =>
      obtain ⟨d2, img2, hd2, hf, hsub⟩ := hinv.1 ho
      rw [hd] at hd2
      obtain ⟨h1, h2⟩ := List.append_inj' hd2 rfl
      simp at h2
      subst h1
      subst h2
      exact Or.inl ⟨rfl, hf, hsub⟩
    | false =>
      rcases hinv.2 ho with ⟨hd2, _⟩ | ⟨d2, img2, dl, hd2, hl, hsub⟩
      · rw [hd] at hd2
        simp at hd2
      · rw [hd] at hd2
        obtain ⟨h1, h2⟩ := List.append_inj' hd2 rfl
        simp at h2
        subst h1
        subst h2
        exact Or.inr ⟨rfl, dl, hl, hsub⟩
  · intro hs ho
    obtain ⟨d, img, hd, hf, _⟩ := hinv.1 ho
    rw [step_accept decode s hs ho, hd, List.getLast?_concat, hf]
  · intro ho
    simp [handleWriter.step, ho]
  · intro f rest hf hsrc hs
    exact step_tick_frame decode s f rest hf hsrc hs
  · intro hs
    simp [handleWriter.step, hs]

theorem handleWriter_delivers_latest_in_order_witness :
    List.Sublist [some [1, 255, 217]] ([[1, 255, 217], [3, 255, 217]].map some)
    ∧ handleWriter.step decodeBytes
        ({ m := 3, out := true, frame := some [3, 255, 217],
           src := [4, 255, 217, 5, 255, 217], stopped := false,
           decoded := [[1, 255, 217], [3, 255, 217]],
           delivered := [some [1, 255, 217]] } : LoopState (List Nat)) Event.accept
        = some { m := 3, out := false, frame := some [3, 255, 217],
                 src := [4, 255, 217, 5, 255, 217], stopped := false,
                 decoded := [[1, 255, 217], [3, 255, 217]],
                 delivered := [some [1, 255, 217]]
                    ++ [[[1, 255, 217], [3, 255, 217]].getLast?] } :=
  let h := handleWriter_delivers_latest_in_order decodeBytes fiveFrames
    [Event.tick, Event.accept, Event.tick, Event.tick]
    { m := 3, out := true, frame := some [3, 255, 217], src := [4, 255, 217, 5, 255, 217],
      stopped := false, decoded := [[1, 255, 217], [3, 255, 217]],
      delivered := [some [1, 255, 217]] }
    (by decide)
  ⟨h.1, h.2.2.2.1 rfl rfl⟩

theorem readFrames_split (k : Nat) :
    ∀ (m : Nat) (src : List Nat) (fs : List (List Nat)) (rest : List Nat),
      readFrames (k + m) src = some (fs, rest) →
      ∃ mid, readFrames k src = some (fs.take k, mid)
        ∧ readFrames m mid = some (fs.drop k, rest) := by
  induction k with
  | zero =>
    intro m src fs rest h
    rw [Nat.zero_add] at h
    exact ⟨src, rfl, by simpa using h⟩
  | succ k ih =>
    intro m src fs rest h
    have h2 : readFrames ((k + m) + 1) src = some (fs, rest) := by
      have : k + 1 + m = (k + m) + 1 := by omega
      rwa [this] at h
    obtain ⟨f, fs2, r1, hr1, hr2, hfs⟩ := readFrames_succ _ _ _ _ h2
    obtain ⟨mid, hk, hm⟩ := ih m r1 fs2 rest hr2
    subst hfs
    refine ⟨mid, ?_, by simpa using hm⟩
    simp [readFrames, hr1, hk]

theorem kept_decodes (decode : List Nat → Option α) (img : List Nat → α)
    (fs : List (List Nat))
    (hdec : ∀ j f, fs[2 * j]? = some f → decode f = some (img f)) :
    ∀ f ∈ keptFrom 0 fs, decode f = some (img f) := by
  intro f hf
  obtain ⟨j, hj⟩ := List.mem_iff_getElem?.1 hf
  rw [keptFrom_getElem] at hj
  exact hdec j f (by simpa using hj)

theorem kept_take_decodes (decode : List Nat → Option α) (img : List Nat → α)
    (fs : List (List Nat)) (k : Nat)
    (hdec : ∀ j f, fs[2 * j]? = some f → decode f = some (img f)) :
    ∀ f ∈ keptFrom 0 (fs.take k), decode f = some (img f) := by
  apply kept_decodes
  intro j f hj
  rw [List.getElem?_take] at hj
  split at hj
  · exact hdec j f hj
  · simp at hj

/-- C7 (counterexample). Five frames, five ticks, no cancel, no read or decode
error: frames 1, 3 and 5 are decoded, but the print task, busy after receiving
frame 1, receives only frames 1 and 5. So it is false that among the first 5
extracted frames `ceil(5/2) = 3` are forwarded to the print task. -/
theorem handleWriter_forwards_fewer_than_decoded :
    (handleWriter.run decodeBytes (handleWriter.enterLoop fiveFrames)
        [Event.tick, Event.accept, Event.tick, Event.tick, Event.tick, Event.tick,
         Event.accept]).map
          (fun s => (s.m, s.stopped, s.out, s.decoded.length, s.delivered.length))
      = some (5, false, false, 3, 2)
    ∧ ticks [Event.tick, Event.accept, Event.tick, Event.tick, Event.tick, Event.tick,
         Event.accept] = 5
    ∧ readFrames 5 fiveFrames
        = some ([[1, 255, 217], [2, 255, 217], [3, 255, 217], [4, 255, 217], [5, 255, 217]], [])
    ∧ ¬ (∀ (es : List Event) (s : LoopState (List Nat)), Event.cancel ∉ es → ticks es = 5 →
          handleWriter.run decodeBytes (handleWriter.enterLoop fiveFrames) es = some s →
          s.out = false → s.delivered.length = (5 + 1) / 2) := by
  refine ⟨by decide, by decide, by decide, ?_⟩
  intro h
  have h2 := h [Event.tick, Event.accept, Event.tick, Event.tick, Event.tick, Event.tick,
      Event.accept]
    { m := 5, out := false, frame := some [5, 255, 217], src := [], stopped := false,
      decoded := [[1, 255, 217], [3, 255, 217], [5, 255, 217]],
      delivered := [some [1, 255, 217], some [5, 255, 217]] }
    (by decide) (by decide) (by decide) rfl
  exact absurd h2 (by decide)

/-- C7 (amended). With the counter starting at 0, no read error among the first
`n` frames and no decode error on the odd-numbered ones: (1) whatever the
interleaving of ticks and hand-offs, the tick that extracts frame `k + 1` reads
exactly that frame, and it decodes it and stages it for hand-off
(`frame` = its image, `out = printCh`) exactly when `k + 1` is odd, an even
`k + 1` changing only the counter and the reader; (2) after `n` ticks the counter
is `n` and the decoded images are those of frames 1, 3, 5, ..., `(n+1)/2` of
them, of which the print task has received a subsequence; (3) such runs exist;
(4) when the print task takes each staged image before the next tick it receives
exactly those `(n+1)/2` images. -/
theorem handleWriter_decimation {α : Type} (decode : List Nat → Option α)
    (img : List Nat → α) (src : List Nat) (n : Nat) (fs : List (List Nat)) (rest : List Nat)
    (hread : readFrames n src = some (fs, rest))
    (hdec : ∀ j f, fs[2 * j]? = some f → decode f = some (img f)) :
    (∀ (es : List Event) (s : LoopState α) (k : Nat), Event.cancel ∉ es → ticks es = k →
        k < n → handleWriter.run decode (handleWriter.enterLoop src) es = some s →
        ∃ f r, fs[k]? = some f ∧ readFrame s.src = some (FrameResult.frame f, r)
          ∧ handleWriter.step decode s Event.tick =
              some (if (k + 1) % 2 = 0 then { s with m := k + 1, src := r }
                else { s with m := k + 1, src := r, out := true, frame := some (img f),
                              decoded := s.decoded ++ [img f] }))
    ∧ (∀ (es : List Event) (s : LoopState α), Event.cancel ∉ es → ticks es = n →
        handleWriter.run decode (handleWriter.enterLoop src) es = some s →
        s.m = n ∧ s.stopped = false ∧ s.src = rest ∧ s.decoded.length = (n + 1) / 2
          ∧ (∀ j, s.decoded[j]? = (fs[2 * j]?).map img)
          ∧ List.Sublist s.delivered (s.decoded.map some)
          ∧ s.delivered.length ≤ (n + 1) / 2)
    ∧ (∃ s, handleWriter.run decode (handleWriter.enterLoop src)
          (List.replicate n Event.tick) = some s)
    ∧ (∃ s, handleWriter.run decode (handleWriter.enterLoop src) (keepingUp 0 n) = some s
          ∧ s.delivered = s.decoded.map some ∧ s.delivered.length = (n + 1) / 2
          ∧ ∀ j, s.delivered[j]? = (fs[2 * j]?).map (fun f => some (img f))) := by
  have hlen := readFrames_length n src fs rest hread
  have hkept := kept_decodes decode img fs hdec
  refine ⟨?_, ?_, ?_, ?_⟩
  · intro es s k hnc hk hkn hrun
    obtain ⟨m, hm⟩ : ∃ m, n = k + (m + 1) := ⟨n - k - 1, by omega⟩
    rw [hm] at hread
    obtain ⟨mid, hr1, hr2⟩ := readFrames_split k (m + 1) src fs rest hread
    obtain ⟨f, fs2, r, hrf, _, hfs⟩ := readFrames_succ m mid _ rest hr2
    obtain ⟨h1, h2, h3, _⟩ := run_decimation decode img es (handleWriter.enterLoop src) s k
      (fs.take k) mid rfl hr1 (kept_take_decodes decode img fs k hdec) hnc hk hrun
    have hsm : s.m = k := by simpa [handleWriter.enterLoop] using h1
    have hfk : fs[k]? = some f := by
      have := congrArg (fun l => l[0]?) hfs
      simpa using this
    have hrf2 : readFrame s.src = some (FrameResult.frame f, r) := by rw [h2]; exact hrf
    refine ⟨f, r, hfk, hrf2, ?_⟩
    by_cases hpar : (k + 1) % 2 = 0
    · rw [if_pos hpar, step_tick_even decode s f r h3 hrf2 (by rw [hsm]; exact hpar), hsm]
    · have hkeven : k = 2 * (k / 2) := by omega
      have hdf : decode f = some (img f) := hdec (k / 2) f (by rw [← hkeven]; exact hfk)
      rw [if_neg hpar, step_tick_odd decode s f r (img f) h3 hrf2 (by rw [hsm]; exact hpar) hdf,
        hsm]
  · intro es s hnc hn hrun
    obtain ⟨h1, h2, h3, h4⟩ := run_decimation decode img es (handleWriter.enterLoop src) s n fs
      rest rfl hread hkept hnc hn hrun
    have h5 : s.decoded = (keptFrom 0 fs).map img := by
      simpa [handleWriter.enterLoop] using h4
    have hinv := handoffInv_run decode es _ s (handoffInv_enterLoop src) hrun
    have hdl : s.decoded.length = (n + 1) / 2 := by
      rw [h5, List.length_map, keptFrom_length, hlen]
      simp
    refine ⟨by simpa [handleWriter.enterLoop] using h1, h3, h2, hdl, ?_, hinv.sublist, ?_⟩
    · intro j
      rw [h5, List.getElem?_map, keptFrom_getElem]
      simp
    · have := hinv.sublist.length_le
      rw [List.length_map, hdl] at this
      exact this
  · exact run_ticks_exists decode img n (handleWriter.enterLoop src) fs rest rfl hread hkept
  · obtain ⟨s, h1, _, h3, h4⟩ := run_keepingUp decode img n (handleWriter.enterLoop src) fs
      rest rfl rfl hread hkept
    have h5 : s.decoded = (keptFrom 0 fs).map img := by
      simpa [handleWriter.enterLoop] using h3
    have h6 : s.delivered = ((keptFrom 0 fs).map img).map some := by
      simpa [handleWriter.enterLoop] using h4
    refine ⟨s, h1, by rw [h6, h5], ?_, ?_⟩
    · rw [h6, List.length_map, List.length_map, keptFrom_length, hlen]
      simp
    · intro j
      rw [h6, List.getElem?_map, List.getElem?_map, keptFrom_getElem]
      simp
      rfl

theorem handleWriter_decimation_witness :
    (∃ s, handleWriter.run decodeNotSecond (handleWriter.enterLoop threeFrames)
          (List.replicate 3 Event.tick) = some s)
    ∧ (∃ s, handleWriter.run decodeNotSecond (handleWriter.enterLoop threeFrames)
          (keepingUp 0 3) = some s
          ∧ s.delivered = s.decoded.map some ∧ s.delivered.length = (3 + 1) / 2
          ∧ ∀ j, s.delivered[j]?
              = ([[1, 255, 217], [2, 255, 217], [3, 255, 217]][2 * j]?).map
                  (fun f => some (id f))) :=
  (handleWriter_decimation decodeNotSecond id threeFrames 3
    [[1, 255, 217], [2, 255, 217], [3, 255, 217]] [] (by decide)
    (by
      intro j f hj
      match j, hj with
      | 0, hj => simp at hj; subst hj; decide
      | 1, hj => simp at hj; subst hj; decide
      | j + 2, hj =>
        rw [List.getElem?_eq_none (by simp only [List.length_cons, List.length_nil]; omega)]
          at hj
        cases hj)).2.2


theorem isFrame_length (f : List Nat) (hf : IsFrame f) : 2 ≤ f.length := by
  have := hf.1.length_le
  simpa using this

theorem flatten_frames_length (frames : List (List Nat)) (hf : ∀ f ∈ frames, IsFrame f) :
    2 * frames.length ≤ frames.flatten.length := by
  induction frames with
  | nil => simp
  | cons f fs ih =>
    have h1 := isFrame_length f (hf f (List.mem_cons_self _ _))
    have h2 := ih (fun g hg => hf g (List.mem_cons_of_mem _ hg))
    simp only [List.flatten_cons, List.length_append, List.length_cons]
    omega

theorem skipFrames_flatten (k : Nat) :
    ∀ frames : List (List Nat), (∀ f ∈ frames, IsFrame f) → k ≤ frames.length →
      skipFrames k frames.flatten = (frames.drop k).flatten := by
  induction k with
  | zero => intro frames _ _; simp [skipFrames]
  | succ k ih =>
    intro frames hf hk
    cases frames with
    | nil => simp at hk
    | cons f fs =>
      have h1 := readFrame_frame f fs.flatten (hf f (List.mem_cons_self _ _))
      simp only [List.flatten_cons, skipFrames, h1, List.drop_succ_cons]
      exact ih fs (fun g hg => hf g (List.mem_cons_of_mem _ hg)) (by simpa using hk)

theorem wrap64_of_small (x : Int) (h0 : 0 ≤ x) (h1 : x < 2 ^ 63) : wrap64 x = x := by
  unfold wrap64
  norm_num at h1 ⊢
  omega

theorem start_flatten {α : Type} (s : Nat) (frames : List (List Nat)) (hs : 0 < s)
    (hframes : ∀ f ∈ frames, IsFrame f) (hlen : 25 * s + 1 ≤ frames.length)
    (hfile : frames.flatten.length < 2 ^ 63) :
    (handleWriter.start (s : Int) frames.flatten : LoopState α)
      = handleWriter.enterLoop ((frames.drop (25 * s)).flatten) := by
  have hlen2 := flatten_frames_length frames hframes
  have hsmall : ((s : Int) * 25) < 2 ^ 63 := by
    have : s * 25 < 2 ^ 63 := by omega
    exact_mod_cast this
  have hpos : (0 : Int) < (s : Int) := by exact_mod_cast hs
  have hw := wrap64_of_small ((s : Int) * 25) (by positivity) hsmall
  have hnat : ((s : Int) * 25).toNat = 25 * s := by
    have : ((s : Int) * 25) = ((25 * s : Nat) : Int) := by push_cast; ring
    rw [this, Int.toNat_ofNat]
  simp only [handleWriter.start, hpos, gt_iff_lt, if_true, hw, hnat]
  rw [skipFrames_flatten (25 * s) frames hframes (by omega)]

theorem first_tick_after_start {α : Type} (decode : List Nat → Option α)
    (k : Nat) (frames : List (List Nat)) (hframes : ∀ f ∈ frames, IsFrame f)
    (hk : k < frames.length) :
    ∃ f, frames[k]? = some f ∧
      handleWriter.step decode (handleWriter.enterLoop ((frames.drop k).flatten)) Event.tick
        = some (match decode f with
            | some img =>
              { m := 1, out := true, frame := some img,
                src := (frames.drop (k + 1)).flatten, stopped := false,
                decoded := [img], delivered := [] }
            | none =>
              { m := 1, out := false, frame := none,
                src := (frames.drop (k + 1)).flatten, stopped := true,
                decoded := [], delivered := [] }) := by
  refine ⟨frames[k], List.getElem?_eq_getElem hk, ?_⟩
  have hdrop : frames.drop k = frames[k] :: frames.drop (k + 1) := List.drop_eq_getElem_cons hk
  have hfr : IsFrame frames[k] := hframes _ (List.getElem_mem hk)
  have hr := readFrame_frame frames[k] (frames.drop (k + 1)).flatten hfr
  rw [hdrop]
  simp only [List.flatten_cons, handleWriter.step, handleWriter.enterLoop, hr]
  cases decode frames[k] <;> simp

/-- C9. For a start offset `s > 0` and a source made of at least `25*s + 1`
concatenated frames (each ending in `0xFF 0xD9` with the pair nowhere else; the
source is a file, shorter than `2^63` bytes), `handleWriter` reaches the
streaming loop having consumed exactly the first `25*s` frames; the first tick
reads source frame number `25*s + 1` (index `25*s` counting from 0), gives it
counter value 1 and passes it to the decoder. For `s = 2` and 250 frames, 50
frames are discarded and playback begins at frame number 51. -/
theorem handleWriter_start_offset {α : Type} (decode : List Nat → Option α) :
    (∀ (s : Nat) (frames : List (List Nat)), 0 < s → (∀ f ∈ frames, IsFrame f) →
      25 * s + 1 ≤ frames.length → frames.flatten.length < 2 ^ 63 →
      (handleWriter.start (s : Int) frames.flatten : LoopState α)
        = handleWriter.enterLoop ((frames.drop (25 * s)).flatten)
      ∧ ∃ f, frames[25 * s]? = some f ∧
          handleWriter.step decode (handleWriter.start (s : Int) frames.flatten) Event.tick
            = some (match decode f with
                | some img =>
                  { m := 1, out := true, frame := some img,
                    src := (frames.drop (25 * s + 1)).flatten, stopped := false,
                    decoded := [img], delivered := [] }
                | none =>
                  { m := 1, out := false, frame := none,
                    src := (frames.drop (25 * s + 1)).flatten, stopped := true,
                    decoded := [], delivered := [] }))
    ∧ (∀ (frames : List (List Nat)), (∀ f ∈ frames, IsFrame f) → frames.length = 250 →
      (handleWriter.start 2 frames.flatten : LoopState α)
        = handleWriter.enterLoop ((frames.drop 50).flatten)
      ∧ ∃ f, frames[50]? = some f ∧
          handleWriter.step decode (handleWriter.start 2 frames.flatten) Event.tick
            = some (match decode f with
                | some img =>
                  { m := 1, out := true, frame := some img,
                    src := (frames.drop 51).flatten, stopped := false,
                    decoded := [img], delivered := [] }
                | none =>
                  { m := 1, out := false, frame := none,
                    src := (frames.drop 51).flatten, stopped := true,
                    decoded := [], delivered := [] })) := by
  have gen : ∀ (s : Nat) (frames : List (List Nat)), 0 < s → (∀ f ∈ frames, IsFrame f) →
      25 * s + 1 ≤ frames.length → frames.flatten.length < 2 ^ 63 →
      (handleWriter.start (s : Int) frames.flatten : LoopState α)
        = handleWriter.enterLoop ((frames.drop (25 * s)).flatten)
      ∧ ∃ f, frames[25 * s]? = some f ∧
          handleWriter.step decode (handleWriter.start (s : Int) frames.flatten) Event.tick
            = some (match decode f with
                | some img =>
                  { m := 1, out := true, frame := some img,
                    src := (frames.drop (25 * s + 1)).flatten, stopped := false,
                    decoded := [img], delivered := [] }
                | none =>
                  { m := 1, out := false, frame := none,
                    src := (frames.drop (25 * s + 1)).flatten, stopped := true,
                    decoded := [], delivered := [] }) := by
    intro s frames hs hframes hlen hfile
    have hst := @start_flatten α s frames hs hframes hlen hfile
    refine ⟨hst, ?_⟩
    rw [hst]
    exact first_tick_after_start decode (25 * s) frames hframes (by omega)
  refine ⟨gen, ?_⟩
  intro frames hframes hlen
  have hw : (wrap64 (2 * 25)).toNat = 50 := by decide
  have hst : (handleWriter.start 2 frames.flatten : LoopState α)
      = handleWriter.enterLoop ((frames.drop 50).flatten) := by
    simp only [handleWriter.start, gt_iff_lt, Nat.ofNat_pos, if_true, hw]
    rw [skipFrames_flatten 50 frames hframes (by omega)]
  refine ⟨hst, ?_⟩
  rw [hst]
  exact first_tick_after_start decode 50 frames hframes (by omega)

theorem isFrame_tagged (i : Nat) : IsFrame [i, 255, 217] := by
  refine ⟨⟨[i], rfl⟩, ?_⟩
  intro n hn
  have hn3 : n < 3 := by simpa using hn
  unfold EndsEOI
  intro hsuf
  have hle := hsuf.length_le
  simp at hle
  have hn2 : n = 2 := by omega
  subst hn2
  have heq := hsuf.eq_of_length (by simp)
  simp at heq

theorem source250_frames : ∀ f ∈ source250, IsFrame f := by
  intro f hf
  obtain ⟨i, _, rfl⟩ := List.mem_map.1 hf
  exact isFrame_tagged i

theorem tagged_flatten_length (l : List Nat) :
    ((l.map (fun i => [i, 255, 217])).flatten).length = 3 * l.length := by
  induction l with
  | nil => rfl
  | cons a l ih =>
    simp only [List.map_cons, List.flatten_cons, List.length_append, List.length_cons,
      List.length_nil, ih]
    omega

theorem source250_small : source250.flatten.length < 2 ^ 63 := by
  rw [source250, tagged_flatten_length, List.length_range]
  norm_num

theorem handleWriter_start_offset_witness :
    (handleWriter.start ((2 : Nat) : Int) source250.flatten : LoopState (List Nat))
        = handleWriter.enterLoop ((source250.drop (25 * 2)).flatten)
      ∧ ∃ f, source250[25 * 2]? = some f ∧
          handleWriter.step decodeBytes (handleWriter.start ((2 : Nat) : Int) source250.flatten)
              Event.tick
            = some (match decodeBytes f with
                | some img =>
                  { m := 1, out := true, frame := some img,
                    src := (source250.drop (25 * 2 + 1)).flatten, stopped := false,
                    decoded := [img], delivered := [] }
                | none =>
                  { m := 1, out := false, frame := none,
                    src := (source250.drop (25 * 2 + 1)).flatten, stopped := true,
                    decoded := [], delivered := [] }) :=
  (handleWriter_start_offset decodeBytes).1 2 source250 (by decide) source250_frames
    (by simp [source250]) source250_small


/-! ### The scale factor -/

theorem wrap64_of_range (x : Int) (h0 : -(2 ^ 63) ≤ x) (h1 : x < 2 ^ 63) : wrap64 x = x := by
  unfold wrap64
  norm_num at h0 h1 ⊢
  omega

theorem scalar_eq_min_wrapped (dx dy cols rows : Int) :
    scalar dx dy cols rows
      = min 1 (min (((wrap64 (cols * 2) : Int) : ℚ) / (dx : ℚ))
                   (((wrap64 (rows * 4) : Int) : ℚ) / (dy : ℚ))) := by
  simp only [scalar]
  generalize ((wrap64 (cols * 2) : Int) : ℚ) / (dx : ℚ) = x
  generalize ((wrap64 (rows * 4) : Int) : ℚ) / (dy : ℚ) = y
  by_cases h1 : x < 1
  · by_cases h2 : y < x
    · rw [if_pos h1, if_pos h2, min_eq_right (le_of_lt h2), min_eq_right (le_of_lt (h2.trans h1))]
    · rw [if_pos h1, if_neg h2, min_eq_left (not_lt.1 h2), min_eq_right (le_of_lt h1)]
  · by_cases h2 : y < 1
    · rw [if_neg h1, if_pos h2, min_eq_right ((le_of_lt h2).trans (not_lt.1 h1)),
        min_eq_right (le_of_lt h2)]
    · rw [if_neg h1, if_neg h2, min_eq_left (le_min (not_lt.1 h1) (not_lt.1 h2))]

theorem scalar_eq_min (dx dy cols rows : Int)
    (hc0 : -(2 ^ 63) ≤ cols * 2) (hc1 : cols * 2 < 2 ^ 63)
    (hr0 : -(2 ^ 63) ≤ rows * 4) (hr1 : rows * 4 < 2 ^ 63) :
    scalar dx dy cols rows
      = min 1 (min ((2 * (cols : ℚ)) / (dx : ℚ)) ((4 * (rows : ℚ)) / (dy : ℚ))) := by
  have hx : ((cols * 2 : Int) : ℚ) = 2 * (cols : ℚ) := by push_cast; ring
  have hy : ((rows * 4 : Int) : ℚ) = 4 * (rows : ℚ) := by push_cast; ring
  rw [scalar_eq_min_wrapped, wrap64_of_range _ hc0 hc1, wrap64_of_range _ hr0 hr1, hx, hy]

theorem scalar_le_one (dx dy cols rows : Int) : scalar dx dy cols rows ≤ 1 := by
  rw [scalar_eq_min_wrapped]
  exact min_le_left _ _

/-- C10 (counterexample). For a 1 by 1 image and a terminal of `2^62` columns and
1 row the product `cols*2` wraps to `-2^63`, so `scalar` returns `-2^63`, whereas
`min(1, (2*cols)/dx, (4*rows)/dy) = min(1, 2^63, 4) = 1`. -/
theorem scalar_wraps_for_huge_columns :
    scalar 1 1 4611686018427387904 1 = -9223372036854775808
    ∧ min (1 : ℚ) (min ((2 * ((4611686018427387904 : Int) : ℚ)) / ((1 : Int) : ℚ))
                        ((4 * ((1 : Int) : ℚ)) / ((1 : Int) : ℚ))) = 1
    ∧ scalar 1 1 4611686018427387904 1
        ≠ min (1 : ℚ) (min ((2 * ((4611686018427387904 : Int) : ℚ)) / ((1 : Int) : ℚ))
                            ((4 * ((1 : Int) : ℚ)) / ((1 : Int) : ℚ))) := by
  have h1 : scalar 1 1 4611686018427387904 1 = -9223372036854775808 := by
    norm_num [scalar, wrap64]
  have h2 : min (1 : ℚ) (min ((2 * ((4611686018427387904 : Int) : ℚ)) / ((1 : Int) : ℚ))
                        ((4 * ((1 : Int) : ℚ)) / ((1 : Int) : ℚ))) = 1 := by
    norm_num
  refine ⟨h1, h2, ?_⟩
  rw [h1, h2]
  norm_num

/-- C10 (amended). For positive image dimensions and a terminal size whose
products `cols*2` and `rows*4` fit a 64-bit `int` (every size the negotiation can
return, 0..65535, does), `scalar`, read as exact rational arithmetic, equals
`min(1, (2*cols)/dx, (4*rows)/dy)`; it never exceeds 1 for any terminal size, so
the clamp in `Filter.Filter` leaves it unchanged; for an image of 1600 by 1200
and a terminal of 80 by 24, `scaleX = 160/1600 = 0.10`, `scaleY = 96/1200 = 0.08`
and the result is `0.08`. -/
theorem scalar_is_min (dx dy cols rows : Int) (hdx : 0 < dx) (hdy : 0 < dy)
    (hc0 : -(2 ^ 63) ≤ cols * 2) (hc1 : cols * 2 < 2 ^ 63)
    (hr0 : -(2 ^ 63) ≤ rows * 4) (hr1 : rows * 4 < 2 ^ 63) :
    scalar dx dy cols rows
        = min 1 (min ((2 * (cols : ℚ)) / (dx : ℚ)) ((4 * (rows : ℚ)) / (dy : ℚ)))
    ∧ (∀ c r : Int, 0 ≤ c → c < 65536 → 0 ≤ r → r < 65536 →
        scalar dx dy c r = min 1 (min ((2 * (c : ℚ)) / (dx : ℚ)) ((4 * (r : ℚ)) / (dy : ℚ))))
    ∧ (∀ c r : Int, scalar dx dy c r ≤ 1 ∧ Filter.scale dx dy c r = scalar dx dy c r)
    ∧ (dx : ℚ) ≠ 0 ∧ (dy : ℚ) ≠ 0
    ∧ ((wrap64 (80 * 2) : Int) : ℚ) / ((1600 : Int) : ℚ) = 160 / 1600
    ∧ ((wrap64 (24 * 4) : Int) : ℚ) / ((1200 : Int) : ℚ) = 96 / 1200
    ∧ scalar 1600 1200 80 24 = 96 / 1200
    ∧ scalar 1600 1200 80 24 = 0.08 := by
  refine ⟨scalar_eq_min dx dy cols rows hc0 hc1 hr0 hr1, ?_, ?_, ?_, ?_, ?_, ?_, ?_, ?_⟩
  · intro c r h1 h2 h3 h4
    exact scalar_eq_min dx dy c r (by omega) (by omega) (by omega) (by omega)
  · intro c r
    have hle := scalar_le_one dx dy c r
    refine ⟨hle, ?_⟩
    simp only [Filter.scale]
    by_cases h : scalar dx dy c r ≥ 1
    · rw [if_pos h]; exact le_antisymm h hle
    · rw [if_neg h]
  · exact_mod_cast (ne_of_gt hdx)
  · exact_mod_cast (ne_of_gt hdy)
  · norm_num [wrap64]
  · norm_num [wrap64]
  · norm_num [scalar, wrap64]
  · norm_num [scalar, wrap64]

theorem scalar_is_min_witness :
    scalar 1600 1200 80 24
        = min 1 (min ((2 * ((80 : Int) : ℚ)) / ((1600 : Int) : ℚ))
                     ((4 * ((24 : Int) : ℚ)) / ((1200 : Int) : ℚ)))
    ∧ (∀ c r : Int, scalar 1600 1200 c r ≤ 1
        ∧ Filter.scale 1600 1200 c r = scalar 1600 1200 c r) :=
  ⟨(scalar_is_min 1600 1200 80 24 (by decide) (by decide) (by decide) (by decide)
      (by decide) (by decide)).1,
   (scalar_is_min 1600 1200 80 24 (by decide) (by decide) (by decide) (by decide)
      (by decide) (by decide)).2.2.1⟩

end Blinken
